import Mathlib

/-!
Verification development for the BPv7 CBOR bundle decoder
(`wireshark-plugin/src/packet-bpv7.h` and its decoding logic).

The repository ships only the header `packet-bpv7.h`, which declares the
data structures (`bp_cbor_head_t`, `bp_cbor_chunk_t`, `bp_eid_t`,
`bp_creation_ts_t`, `bp_block_primary_t`, `bp_block_canonical_t`,
`bp_bundle_t`) and the scanner entry points (`bp_scan_cbor_head`,
`bp_scan_cbor_chunk`).  The decoding bodies are not part of the sources,
so every behavioural definition below is modelled from the specification
text, while the record shapes mirror the header structs.

Buffers are byte lists; a byte read always masks to `% 256`, mirroring a
`tvbuff_t` octet accessor.  Fallible scanning uses `Except`.
-/

instance {ε α : Type} [DecidableEq ε] [DecidableEq α] : DecidableEq (Except ε α) := fun x y =>
  match x, y with
  | .error a, .error b =>
    match decEq a b with
    | isTrue h => isTrue (h ▸ rfl)
    | isFalse h => isFalse fun hc => h (Except.error.inj hc)
  | .error _, .ok _ => isFalse fun hc => Except.noConfusion hc
  | .ok _, .error _ => isFalse fun hc => Except.noConfusion hc
  | .ok a, .ok b =>
    match decEq a b with
    | isTrue h => isTrue (h ▸ rfl)
    | isFalse h => isFalse fun hc => h (Except.ok.inj hc)

/-- Anomaly taxonomy of the decoder (spec section 7). -/
inductive BpError where
  | TruncatedData
  | ReservedMinorType
  | UnsupportedScheme
  | CrcMismatch
  | InvalidVersion
  | DuplicateBlockNumber
  | PayloadNotLast
  | TrailingData
  | MissingRequiredField
deriving DecidableEq, Repr

/-- Read one octet of the buffer at an absolute offset. -/
def byteAt (tvb : List Nat) (i : Nat) : Option Nat :=
  tvb[i]?.map (fun b => b % 256)

/-- Read `n` consecutive octets starting at `start`; `none` when the
buffer ends early. -/
def readBytes (tvb : List Nat) (start : Nat) : Nat → Option (List Nat)
  | 0 => some []
  | n + 1 =>
    match byteAt tvb start with
    | none => none
    | some b =>
      match readBytes tvb (start + 1) n with
      | none => none
      | some bs => some (b :: bs)

/-- Big-endian integer value of a byte sequence. -/
def bigEndian (bs : List Nat) : Nat :=
  bs.foldl (fun acc b => acc * 256 + b) 0

/-- Bytes the decoder slices out of the buffer (masked to octets). -/
def sliceBytes (tvb : List Nat) (lo n : Nat) : List Nat :=
  ((tvb.drop lo).take n).map (fun b => b % 256)

/-- Number of argument bytes for CBOR minor types 24, 25, 26, 27. -/
def argLen (minor : Nat) : Nat :=
  if minor = 24 then 1 else if minor = 25 then 2 else if minor = 26 then 4 else 8

/-- Mirror of struct `bp_cbor_head_t` of `packet-bpv7.h`: start offset,
header length, optional attached error, major type, minor type and the
decoded raw value ("either the encoded value or zero, with one-bit
truncation possible"). -/
structure bp_cbor_head_t where
  start : Nat
  length : Nat
  error : Option BpError
  type_major : Nat
  type_minor : Nat
  rawvalue : Nat
deriving DecidableEq, Repr

/-- Modelled from the spec: the HeadScanner `bp_scan_cbor_head`, whose
body is not in the shipped sources.  First byte splits into major (top 3
bits) and minor (bottom 5 bits).  Minor < 24: value is the minor itself,
header length 1.  Minor 24/25/26/27: the value is read from the 1/2/4/8
following big-endian bytes, failing with `TruncatedData` when the buffer
ends early, and is truncated to 63 bits.  Minor 31 is the
indefinite-length marker with no encoded value (raw value zero).  Minors
28-30 are reserved: the head carries a `ReservedMinorType` error but the
scan does not abort. -/
def bp_scan_cbor_head (tvb : List Nat) (start : Nat) : Except BpError bp_cbor_head_t :=
  match byteAt tvb start with
  | none => .error .TruncatedData
  | some b =>
    let mj := b / 32
    let mn := b % 32
    if mn < 24 then
      .ok ⟨start, 1, none, mj, mn, mn⟩
    else if mn ≤ 27 then
      match readBytes tvb (start + 1) (argLen mn) with
      | none => .error .TruncatedData
      | some bs => .ok ⟨start, 1 + argLen mn, none, mj, mn, bigEndian bs % 2 ^ 63⟩
    else if mn = 31 then
      .ok ⟨start, 1, none, mj, mn, 0⟩
    else
      .ok ⟨start, 1, some .ReservedMinorType, mj, mn, 0⟩

/-- The error of a head as a (possibly empty) anomaly list. -/
def headErrList (h : bp_cbor_head_t) : List BpError :=
  match h.error with
  | none => []
  | some e => [e]

/-- Mirror of struct `bp_cbor_chunk_t` of `packet-bpv7.h`: start offset,
length of the headers, data length (headers plus immediate definite
string data), anomaly list, tag values in wire order, and the final
item's major/minor type and header value. -/
structure bp_cbor_chunk_t where
  start : Nat
  head_length : Nat
  data_length : Nat
  errors : List BpError
  tags : List Nat
  type_major : Nat
  type_minor : Nat
  head_value : Nat
deriving DecidableEq, Repr

/-- Modelled from the spec: the ChunkScanner loop.  Repeatedly scans
heads while the major type is 6 (tag), appending each tag value in
encountered order, then records the final non-tag head.  For major types
2/3 with a definite length the data length is the header length plus the
declared byte count; otherwise it equals the header length.  The `fuel`
argument bounds the loop (a head always consumes at least one byte, so a
fuel of buffer length plus one is never exhausted on real input). -/
def chunkAux (tvb : List Nat) (start : Nat) :
    Nat → Nat → List BpError → List Nat → Except BpError bp_cbor_chunk_t
  | 0, _, _, _ => .error .TruncatedData
  | fuel + 1, ofs, errs, tags =>
    match bp_scan_cbor_head tvb ofs with
    | .error err => .error err
    | .ok h =>
      if h.type_major = 6 then
        chunkAux tvb start fuel (ofs + h.length) (errs ++ headErrList h) (tags ++ [h.rawvalue])
      else
        .ok { start := start
              head_length := ofs + h.length - start
              data_length :=
                if (h.type_major = 2 ∨ h.type_major = 3) ∧ h.type_minor ≠ 31 then
                  ofs + h.length - start + h.rawvalue
                else ofs + h.length - start
              errors := errs ++ headErrList h
              tags := tags
              type_major := h.type_major
              type_minor := h.type_minor
              head_value := h.rawvalue }

/-- Chunk scan with caller-supplied fuel (used by the decoders, which
thread one fuel value derived from the buffer length). -/
def scanChunk (tvb : List Nat) (fuel s : Nat) : Except BpError bp_cbor_chunk_t :=
  chunkAux tvb s fuel s [] []

/-- Modelled from the spec: the ChunkScanner entry point
`bp_scan_cbor_chunk`, whose body is not in the shipped sources. -/
def bp_scan_cbor_chunk (tvb : List Nat) (s : Nat) : Except BpError bp_cbor_chunk_t :=
  scanChunk tvb (tvb.length + 1) s

/-- Modelled from the spec: generic item skipping used when a field's
content is opaque (for example the scheme-specific part of an unknown
EID scheme).  `mode = some k` skips `k` items; `mode = none` skips until
a break marker closes an indefinite-length container. -/
def skipGen (tvb : List Nat) : Nat → Nat → Option Nat → Except BpError Nat
  | 0, ofs, mode => if mode = some 0 then .ok ofs else .error .TruncatedData
  | fuel + 1, ofs, mode =>
    if mode = some 0 then .ok ofs
    else
      match scanChunk tvb (fuel + 1) ofs with
      | .error err => .error err
      | .ok ch =>
        if mode = none ∧ ch.type_major = 7 ∧ ch.type_minor = 31 then
          .ok (ofs + ch.head_length)
        else
          let afterItem : Except BpError Nat :=
            if ch.type_major = 4 ∧ ch.type_minor ≠ 31 then
              skipGen tvb fuel (ofs + ch.head_length) (some ch.head_value)
            else if ch.type_major = 5 ∧ ch.type_minor ≠ 31 then
              skipGen tvb fuel (ofs + ch.head_length) (some (2 * ch.head_value))
            else if 2 ≤ ch.type_major ∧ ch.type_major ≤ 5 ∧ ch.type_minor = 31 then
              skipGen tvb fuel (ofs + ch.head_length) none
            else
              .ok (ofs + ch.data_length)
          match afterItem with
          | .error err => .error err
          | .ok next =>
            match mode with
            | some (k + 1) => skipGen tvb fuel next (some k)
            | some 0 => .ok next
            | none => skipGen tvb fuel next none

/-- Skip exactly one CBOR item. -/
def skipItem (tvb : List Nat) (fuel ofs : Nat) : Except BpError Nat :=
  skipGen tvb fuel ofs (some 1)

/-- CRC shift step of a reflected CRC (LSB-first), with the reflected
polynomial `poly`. -/
def crcShift (poly x : Nat) : Nat :=
  if x % 2 = 1 then (x / 2) ^^^ poly else x / 2

/-- Modelled from the spec: per-byte update of CRC-16/X-25 (polynomial
0x1021, reflected form 0x8408). -/
def crc16_update (crc b : Nat) : Nat :=
  (List.range 8).foldl (fun c _ => crcShift 0x8408 c) (crc ^^^ (b % 256))

/-- Modelled from the spec: CRC-16/X-25 over a byte sequence (initial
value 0xFFFF, reflected input and output, final XOR 0xFFFF). -/
def crc16 (bs : List Nat) : Nat :=
  (bs.foldl crc16_update 0xFFFF) ^^^ 0xFFFF

/-- Modelled from the spec: per-byte update of CRC-32C (Castagnoli
polynomial 0x1EDC6F41, reflected form 0x82F63B78). -/
def crc32_update (crc b : Nat) : Nat :=
  (List.range 8).foldl (fun c _ => crcShift 0x82F63B78 c) (crc ^^^ (b % 256))

/-- Modelled from the spec: CRC-32C over a byte sequence. -/
def crc32c (bs : List Nat) : Nat :=
  (bs.foldl crc32_update 0xFFFFFFFF) ^^^ 0xFFFFFFFF

/-- Big-endian byte rendering of a value on `n` octets (network order of
the CRC field). -/
def beBytes : Nat → Nat → List Nat
  | 0, _ => []
  | n + 1, v => beBytes n (v / 256) ++ [v % 256]

/-- Zero the `n` bytes starting at relative offset `lo` (the CRC field
is zeroed before recomputing the checksum over the block's range). -/
def zeroRange : List Nat → Nat → Nat → List Nat
  | [], _, _ => []
  | x :: xs, 0, 0 => x :: xs
  | _ :: xs, 0, n + 1 => 0 :: zeroRange xs 0 n
  | x :: xs, lo + 1, n => x :: zeroRange xs lo n

/-- Byte length of the CRC field for a CRC type code (2 for CRC-16,
4 for CRC-32C). -/
def crcLen (t : Nat) : Nat := if t = 1 then 2 else 4

/-- Modelled from the spec: the CrcValidator.  The checksum is computed
over the block's encoded byte range with the CRC field zeroed and
compared against the stored field; a mismatch is the non-fatal
`CrcMismatch` anomaly. -/
def crcCheck (tvb : List Nat) (blockStart crcType fieldStart blockEnd : Nat) : List BpError :=
  let n := crcLen crcType
  let blockBytes := sliceBytes tvb blockStart (blockEnd - blockStart)
  let zeroed := zeroRange blockBytes (fieldStart - blockStart) n
  let stored := sliceBytes tvb fieldStart n
  let comp := if crcType = 1 then crc16 zeroed else crc32c zeroed
  if stored = beBytes n comp then [] else [.CrcMismatch]

/-- Modelled from the spec: reading the optional CRC field chunk of a
block (present iff the CRC type is not none).  A field whose length does
not match the CRC type is a non-fatal `MissingRequiredField`; otherwise
the validator runs and its verdict is attached. -/
def readCrcField (tvb : List Nat) (fuel blockStart crcType pos : Nat) :
    Except BpError (List Nat × List BpError × Nat) :=
  match scanChunk tvb fuel pos with
  | .error err => .error err
  | .ok ch =>
    if ch.type_major = 2 ∧ ch.type_minor ≠ 31 ∧ ch.head_value = crcLen crcType then
      .ok (sliceBytes tvb (ch.start + ch.head_length) (crcLen crcType),
           ch.errors ++
             crcCheck tvb blockStart crcType (ch.start + ch.head_length)
               (ch.start + ch.data_length),
           ch.start + ch.data_length)
    else
      .ok ([], ch.errors ++ [.MissingRequiredField], ch.start + ch.data_length)

/-- Mirror of struct `bp_eid_t` of `packet-bpv7.h`: scheme id number
(a signed 64-bit holding an unsigned CBOR value) and derived URI text. -/
structure bp_eid_t where
  scheme : Int
  uri : String
deriving DecidableEq, Repr

/-- Decode text-string bytes into URI text. -/
def textOf (bs : List Nat) : String :=
  String.mk (bs.map Char.ofNat)

/-- Modelled from the spec: the EidDecoder.  An EID is a two-item array
`[scheme, scheme-specific-part]`.  Scheme 1 ("dtn"): the part is the
unsigned integer 0 (`dtn:none`) or a text string (`dtn:<text>`).  Scheme
2 ("ipn"): the part is `[node, service]`, rendered `ipn:<node>.<service>`.
Any other scheme id skips the part, renders an opaque placeholder URI
and attaches a non-fatal `UnsupportedScheme`.  Returns the EID, the next
offset and the anomalies found. -/
def decodeEid (tvb : List Nat) (fuel start : Nat) :
    Except BpError (bp_eid_t × Nat × List BpError) :=
  match scanChunk tvb fuel start with
  | .error err => .error err
  | .ok arrCh =>
    let errs0 := arrCh.errors ++
      (if arrCh.type_major = 4 ∧ arrCh.head_value = 2 then [] else [BpError.MissingRequiredField])
    match scanChunk tvb fuel (arrCh.start + arrCh.data_length) with
    | .error err => .error err
    | .ok schCh =>
      let sspPos := schCh.start + schCh.data_length
      let scheme : Int := (schCh.head_value : Int)
      if schCh.type_major = 0 ∧ schCh.head_value = 1 then
        match scanChunk tvb fuel sspPos with
        | .error err => .error err
        | .ok sspCh =>
          if sspCh.type_major = 0 ∧ sspCh.head_value = 0 then
            .ok (⟨scheme, "dtn:none"⟩, sspCh.start + sspCh.data_length,
                 errs0 ++ schCh.errors ++ sspCh.errors)
          else if sspCh.type_major = 3 ∧ sspCh.type_minor ≠ 31 then
            .ok (⟨scheme, "dtn:" ++ textOf (sliceBytes tvb (sspCh.start + sspCh.head_length) sspCh.head_value)⟩,
                 sspCh.start + sspCh.data_length,
                 errs0 ++ schCh.errors ++ sspCh.errors)
          else
            .ok (⟨scheme, "dtn:?"⟩, sspCh.start + sspCh.data_length,
                 errs0 ++ schCh.errors ++ sspCh.errors ++ [BpError.MissingRequiredField])
      else if schCh.type_major = 0 ∧ schCh.head_value = 2 then
        match scanChunk tvb fuel sspPos with
        | .error err => .error err
        | .ok sspCh =>
          if sspCh.type_major = 4 ∧ sspCh.head_value = 2 ∧ sspCh.type_minor ≠ 31 then
            match scanChunk tvb fuel (sspCh.start + sspCh.data_length) with
            | .error err => .error err
            | .ok nodeCh =>
              match scanChunk tvb fuel (nodeCh.start + nodeCh.data_length) with
              | .error err => .error err
              | .ok svcCh =>
                .ok (⟨scheme, "ipn:" ++ Nat.repr nodeCh.head_value ++ "." ++ Nat.repr svcCh.head_value⟩,
                     svcCh.start + svcCh.data_length,
                     errs0 ++ schCh.errors ++ sspCh.errors ++ nodeCh.errors ++ svcCh.errors)
          else
            .ok (⟨scheme, "ipn:?"⟩, sspCh.start + sspCh.data_length,
                 errs0 ++ schCh.errors ++ sspCh.errors ++ [BpError.MissingRequiredField])
      else
        match skipItem tvb fuel sspPos with
        | .error err => .error err
        | .ok next =>
          .ok (⟨scheme, "unknown"⟩, next,
               errs0 ++ schCh.errors ++ [BpError.UnsupportedScheme])

/-- Mirror of struct `bp_creation_ts_t` of `packet-bpv7.h`. -/
structure bp_creation_ts_t where
  dtntime : Int
  seqno : Nat
deriving DecidableEq, Repr

/-- Modelled from the spec: the TimestampDecoder for the two-item array
`[dtntime, seqno]`. -/
def decodeTs (tvb : List Nat) (fuel start : Nat) :
    Except BpError (bp_creation_ts_t × Nat × List BpError) :=
  match scanChunk tvb fuel start with
  | .error err => .error err
  | .ok arrCh =>
    let errs0 := arrCh.errors ++
      (if arrCh.type_major = 4 ∧ arrCh.head_value = 2 then [] else [BpError.MissingRequiredField])
    match scanChunk tvb fuel (arrCh.start + arrCh.data_length) with
    | .error err => .error err
    | .ok tCh =>
      match scanChunk tvb fuel (tCh.start + tCh.data_length) with
      | .error err => .error err
      | .ok sCh =>
        .ok (⟨(tCh.head_value : Int), sCh.head_value⟩,
             sCh.start + sCh.data_length,
             errs0 ++ tCh.errors ++ sCh.errors)

/-- Mirror of struct `bp_block_primary_t` of `packet-bpv7.h`, extended
with the anomaly list the decoder attaches to the block. -/
structure bp_block_primary_t where
  flags : Nat
  dst_eid : bp_eid_t
  src_eid : bp_eid_t
  rep_eid : bp_eid_t
  ts : bp_creation_ts_t
  crc_type : Nat
  crc_field : List Nat
  errors : List BpError
deriving DecidableEq, Repr

/-- Modelled from the spec: the optional fragment offset and total
length pair of the primary block, present iff the is-fragment flag is
set. -/
def decodeFragPair (tvb : List Nat) (fuel p9 : Nat) : Except BpError (Nat × List BpError) :=
  match scanChunk tvb fuel p9 with
  | .error err => .error err
  | .ok foCh =>
    match scanChunk tvb fuel (foCh.start + foCh.data_length) with
    | .error err => .error err
    | .ok tlCh => .ok (tlCh.start + tlCh.data_length, foCh.errors ++ tlCh.errors)

/-- Modelled from the spec: the tail of the PrimaryBlockParser after the
version check passed, decoding flags, CRC type, the three EIDs, the
creation timestamp, the lifetime, the optional fragment pair and the
optional CRC field. -/
def decodePrimaryRest (tvb : List Nat) (fuel start : Nat) (errs0 : List BpError) (p2 : Nat) :
    Except BpError (bp_block_primary_t × Nat) :=
  match scanChunk tvb fuel p2 with
  | .error err => .error err
  | .ok flCh =>
    let flags := if flCh.type_major = 0 then flCh.head_value else 0
    match scanChunk tvb fuel (flCh.start + flCh.data_length) with
    | .error err => .error err
    | .ok ctCh =>
      let crcType := if ctCh.type_major = 0 then ctCh.head_value else 0
      match decodeEid tvb fuel (ctCh.start + ctCh.data_length) with
      | .error err => .error err
      | .ok (dst, p5, e1) =>
        match decodeEid tvb fuel p5 with
        | .error err => .error err
        | .ok (src, p6, e2) =>
          match decodeEid tvb fuel p6 with
          | .error err => .error err
          | .ok (rep, p7, e3) =>
            match decodeTs tvb fuel p7 with
            | .error err => .error err
            | .ok (ts, p8, e4) =>
              match scanChunk tvb fuel p8 with
              | .error err => .error err
              | .ok ltCh =>
                let p9 := ltCh.start + ltCh.data_length
                let afterFrag : Except BpError (Nat × List BpError) :=
                  if flags % 2 = 1 then decodeFragPair tvb fuel p9 else .ok (p9, [])
                match afterFrag with
                | .error err => .error err
                | .ok (p10, e5) =>
                  let baseErrs := errs0 ++ flCh.errors ++ ctCh.errors ++
                    e1 ++ e2 ++ e3 ++ e4 ++ ltCh.errors ++ e5
                  if crcType = 1 ∨ crcType = 2 then
                    match readCrcField tvb fuel start crcType p10 with
                    | .error err => .error err
                    | .ok (field, ce, pEnd) =>
                      .ok (⟨flags, dst, src, rep, ts, crcType, field, baseErrs ++ ce⟩, pEnd)
                  else
                    .ok (⟨flags, dst, src, rep, ts, crcType, [], baseErrs⟩, p10)

/-- Modelled from the spec: the PrimaryBlockParser.  Fixed positional
layout starting with the version field, which must be the unsigned
integer 7; any other version is the one fatal condition, aborting with
`InvalidVersion` and producing no block. -/
def decodePrimary (tvb : List Nat) (fuel start : Nat) :
    Except BpError (bp_block_primary_t × Nat) :=
  match scanChunk tvb fuel start with
  | .error err => .error err
  | .ok arrCh =>
    let errs0 := arrCh.errors ++
      (if arrCh.type_major = 4 then [] else [BpError.MissingRequiredField])
    match scanChunk tvb fuel (arrCh.start + arrCh.data_length) with
    | .error err => .error err
    | .ok verCh =>
      if verCh.type_major = 0 ∧ verCh.head_value = 7 then
        decodePrimaryRest tvb fuel start (errs0 ++ verCh.errors)
          (verCh.start + verCh.data_length)
      else
        .error .InvalidVersion

/-- Mirror of struct `bp_block_canonical_t` of `packet-bpv7.h`:
bookkeeping index (not the block number), optional type code, optional
block number, flags, CRC type, raw CRC field bytes, type-specific data
bytes, extended with the anomaly list attached to the block. -/
structure bp_block_canonical_t where
  index : Nat
  type_code : Option Nat
  block_number : Option Nat
  flags : Nat
  crc_type : Nat
  crc_field : List Nat
  data : List Nat
  errors : List BpError
deriving DecidableEq, Repr

/-- Modelled from the spec: the CanonicalBlockParser.  Fixed positional
layout `[block-type, block-number, flags, crc-type, data, crc-bytes?]`;
block type and block number are optional so a malformed block still
decodes positionally, and all field anomalies are non-fatal. -/
def decodeCanonical (tvb : List Nat) (fuel start idx : Nat) :
    Except BpError (bp_block_canonical_t × Nat) :=
  match scanChunk tvb fuel start with
  | .error err => .error err
  | .ok arrCh =>
    let errs0 := arrCh.errors ++
      (if arrCh.type_major = 4 then [] else [BpError.MissingRequiredField])
    match scanChunk tvb fuel (arrCh.start + arrCh.data_length) with
    | .error err => .error err
    | .ok tcCh =>
      match scanChunk tvb fuel (tcCh.start + tcCh.data_length) with
      | .error err => .error err
      | .ok bnCh =>
        match scanChunk tvb fuel (bnCh.start + bnCh.data_length) with
        | .error err => .error err
        | .ok flCh =>
          match scanChunk tvb fuel (flCh.start + flCh.data_length) with
          | .error err => .error err
          | .ok ctCh =>
            match scanChunk tvb fuel (ctCh.start + ctCh.data_length) with
            | .error err => .error err
            | .ok dataCh =>
              let typeCode := if tcCh.type_major = 0 then some tcCh.head_value else none
              let blockNum := if bnCh.type_major = 0 then some bnCh.head_value else none
              let flags := if flCh.type_major = 0 then flCh.head_value else 0
              let crcType := if ctCh.type_major = 0 then ctCh.head_value else 0
              let dataOk := dataCh.type_major = 2 ∧ dataCh.type_minor ≠ 31
              let data := if dataOk then
                  sliceBytes tvb (dataCh.start + dataCh.head_length) dataCh.head_value
                else []
              let dErr := if dataOk then [] else [BpError.MissingRequiredField]
              let baseErrs := errs0 ++ tcCh.errors ++ bnCh.errors ++ flCh.errors ++
                ctCh.errors ++ dataCh.errors ++ dErr
              let pD := dataCh.start + dataCh.data_length
              if crcType = 1 ∨ crcType = 2 then
                match readCrcField tvb fuel start crcType pD with
                | .error err => .error err
                | .ok (field, ce, pEnd) =>
                  .ok (⟨idx, typeCode, blockNum, flags, crcType, field, data, baseErrs ++ ce⟩, pEnd)
              else
                .ok (⟨idx, typeCode, blockNum, flags, crcType, [], data, baseErrs⟩, pD)

/-- Modelled from the spec: the canonical-block loop of the BundleParser
for a definite-length outer array, decoding a known count of blocks with
positional indices assigned in wire order. -/
def decodeBlocksDef (tvb : List Nat) (fuel : Nat) :
    Nat → Nat → Nat → Except BpError (List bp_block_canonical_t × Nat)
  | 0, ofs, _ => .ok ([], ofs)
  | k + 1, ofs, idx =>
    match decodeCanonical tvb fuel ofs idx with
    | .error err => .error err
    | .ok (b, next) =>
      match decodeBlocksDef tvb fuel k next (idx + 1) with
      | .error err => .error err
      | .ok (bs, fin) => .ok (b :: bs, fin)

/-- Modelled from the spec: the canonical-block loop of the BundleParser
for an indefinite-length outer array, stopping at the break marker. -/
def decodeBlocksIndef (tvb : List Nat) :
    Nat → Nat → Nat → Except BpError (List bp_block_canonical_t × Nat)
  | 0, _, _ => .error .TruncatedData
  | fuel + 1, ofs, idx =>
    match bp_scan_cbor_head tvb ofs with
    | .error err => .error err
    | .ok h =>
      if h.type_major = 7 ∧ h.type_minor = 31 then
        .ok ([], ofs + h.length)
      else
        match decodeCanonical tvb (fuel + 1) ofs idx with
        | .error err => .error err
        | .ok (b, next) =>
          match decodeBlocksIndef tvb fuel next (idx + 1) with
          | .error err => .error err
          | .ok (bs, fin) => .ok (b :: bs, fin)

/-- Modelled from the spec: uniqueness check of block numbers across the
canonical blocks; every block whose declared number was already seen
contributes one `DuplicateBlockNumber`. -/
def dupBlockNumErrs : List Nat → List bp_block_canonical_t → List BpError
  | _, [] => []
  | seen, b :: rest =>
    match b.block_number with
    | none => dupBlockNumErrs seen rest
    | some n =>
      if n ∈ seen then .DuplicateBlockNumber :: dupBlockNumErrs seen rest
      else dupBlockNumErrs (n :: seen) rest

/-- Modelled from the spec: the payload-type block (type code 1) should
be the last block; every earlier payload block is flagged
`PayloadNotLast`. -/
def payloadNotLastErrs : List bp_block_canonical_t → List BpError
  | [] => []
  | [_] => []
  | b :: rest =>
    (if b.type_code = some 1 then [BpError.PayloadNotLast] else []) ++ payloadNotLastErrs rest

/-- Mirror of struct `bp_bundle_t` of `packet-bpv7.h`: the primary block
and the canonical blocks in wire order, extended with the bundle-level
anomaly list. -/
structure bp_bundle_t where
  primary : bp_block_primary_t
  blocks : List bp_block_canonical_t
  errors : List BpError
deriving DecidableEq, Repr

/-- Modelled from the spec: the BundleParser `decode(buffer)`.  The
outer item must be a CBOR array with at least one element; element 0 is
the primary block (whose `InvalidVersion` is fatal), the rest are
canonical blocks indexed 1, 2, 3, ... in wire order.  Duplicate block
numbers and a non-final payload block are non-fatal bundle anomalies,
and bytes beyond the outer array are flagged `TrailingData`. -/
def decodeBundle (tvb : List Nat) : Except BpError bp_bundle_t :=
  let fuel := tvb.length + 1
  match scanChunk tvb fuel 0 with
  | .error err => .error err
  | .ok outerCh =>
    if outerCh.type_major = 4 then
      if outerCh.type_minor = 31 then
        match decodePrimary tvb fuel (outerCh.start + outerCh.head_length) with
        | .error err => .error err
        | .ok (prim, p) =>
          match decodeBlocksIndef tvb fuel p 1 with
          | .error err => .error err
          | .ok (bs, endOfs) =>
            .ok ⟨prim, bs,
                 outerCh.errors ++ dupBlockNumErrs [] bs ++ payloadNotLastErrs bs ++
                   (if endOfs < tvb.length then [BpError.TrailingData] else [])⟩
      else if outerCh.head_value = 0 then
        .error .MissingRequiredField
      else
        match decodePrimary tvb fuel (outerCh.start + outerCh.head_length) with
        | .error err => .error err
        | .ok (prim, p) =>
          match decodeBlocksDef tvb fuel (outerCh.head_value - 1) p 1 with
          | .error err => .error err
          | .ok (bs, endOfs) =>
            .ok ⟨prim, bs,
                 outerCh.errors ++ dupBlockNumErrs [] bs ++ payloadNotLastErrs bs ++
                   (if endOfs < tvb.length then [BpError.TrailingData] else [])⟩
    else
      .error .MissingRequiredField

/-- Top-level EidDecoder on a standalone buffer. -/
def decodeEidTop (tvb : List Nat) : Except BpError (bp_eid_t × Nat × List BpError) :=
  decodeEid tvb (tvb.length + 1) 0

/-- Reference encoder (spec section 6 wire format): a minimal valid
primary block with version 7, zero flags, no CRC, `dtn:none` EIDs,
timestamp `[0, 0]` and zero lifetime. -/
def encPrim : List Nat :=
  [0x88, 0x07, 0x00, 0x00, 0x82, 0x01, 0x00, 0x82, 0x01, 0x00,
   0x82, 0x01, 0x00, 0x82, 0x00, 0x00, 0x00]

/-- Reference encoder: a canonical block without CRC,
`[type, number, flags, 0, data]`, all header fields below 24. -/
def encodeBlockPlain (tc bn fl : Nat) (d : List Nat) : List Nat :=
  0x85 :: tc :: bn :: fl :: 0 :: (0x40 + d.length) :: d

/-- Reference encoder: a CRC-16 canonical block up to and including the
CRC field's own byte-string header (the two field bytes follow). -/
def encodeBlock16Body (tc bn fl : Nat) (d : List Nat) : List Nat :=
  0x86 :: tc :: bn :: fl :: 1 :: (0x40 + d.length) :: (d ++ [0x42])

/-- Reference encoder: the correct CRC-16 field bytes of a block,
computed over the block's bytes with the field zeroed. -/
def crcFieldOf (tc bn fl : Nat) (d : List Nat) : List Nat :=
  beBytes 2 (crc16 (encodeBlock16Body tc bn fl d ++ [0, 0]))

/-- Reference encoder: a complete CRC-16 canonical block with an
arbitrary stored field `f2`. -/
def encodeBlock16With (tc bn fl : Nat) (d f2 : List Nat) : List Nat :=
  encodeBlock16Body tc bn fl d ++ f2

theorem byteAt_lt {tvb : List Nat} {i b : Nat} (h : byteAt tvb i = some b) : b < 256 := by
  unfold byteAt at h
  cases hg : tvb[i]? with
  | none => rw [hg] at h; simp at h
  | some a => rw [hg] at h; simp at h; omega

theorem byteAt_append_of_get (pre l : List Nat) (k a : Nat) (h : l[k]? = some a)
    (ha : a < 256) : byteAt (pre ++ l) (pre.length + k) = some a := by
  unfold byteAt
  rw [List.getElem?_append_right (by omega)]
  simp [h, Nat.mod_eq_of_lt ha]

theorem scan_head_error_eq {tvb : List Nat} {s : Nat} {e : BpError}
    (h : bp_scan_cbor_head tvb s = .error e) : e = .TruncatedData := by
  unfold bp_scan_cbor_head at h
  cases h0 : byteAt tvb s with
  | none => rw [h0] at h; simp at h; exact h.symm
  | some b =>
    rw [h0] at h
    by_cases h1 : b % 32 < 24
    · simp [h1] at h
    · by_cases h2 : b % 32 ≤ 27
      · simp [h1, h2] at h
        cases h3 : readBytes tvb (s + 1) (argLen (b % 32)) with
        | none => rw [h3] at h; simp at h; exact h.symm
        | some bs => rw [h3] at h; simp at h
      · by_cases h4 : b % 32 = 31 <;> simp [h1, h2, h4] at h

theorem headAt_small {tvb : List Nat} {s b : Nat} (h : byteAt tvb s = some b)
    (hmn : b % 32 < 24) :
    bp_scan_cbor_head tvb s = .ok ⟨s, 1, none, b / 32, b % 32, b % 32⟩ := by
  unfold bp_scan_cbor_head
  rw [h]
  simp [hmn]

theorem headAt_arg {tvb : List Nat} {s b : Nat} {bs : List Nat} (h : byteAt tvb s = some b)
    (h24 : 24 ≤ b % 32) (h27 : b % 32 ≤ 27)
    (hr : readBytes tvb (s + 1) (argLen (b % 32)) = some bs) :
    bp_scan_cbor_head tvb s =
      .ok ⟨s, 1 + argLen (b % 32), none, b / 32, b % 32, bigEndian bs % 2 ^ 63⟩ := by
  unfold bp_scan_cbor_head
  rw [h]
  simp [Nat.not_lt.mpr h24, h27, hr]

theorem headAt_arg_trunc {tvb : List Nat} {s b : Nat} (h : byteAt tvb s = some b)
    (h24 : 24 ≤ b % 32) (h27 : b % 32 ≤ 27)
    (hr : readBytes tvb (s + 1) (argLen (b % 32)) = none) :
    bp_scan_cbor_head tvb s = .error .TruncatedData := by
  unfold bp_scan_cbor_head
  rw [h]
  simp [Nat.not_lt.mpr h24, h27, hr]

theorem headAt_indef {tvb : List Nat} {s b : Nat} (h : byteAt tvb s = some b)
    (hmn : b % 32 = 31) :
    bp_scan_cbor_head tvb s = .ok ⟨s, 1, none, b / 32, b % 32, 0⟩ := by
  unfold bp_scan_cbor_head
  rw [h]
  simp [hmn]

theorem headAt_reserved {tvb : List Nat} {s b : Nat} (h : byteAt tvb s = some b)
    (h28 : 28 ≤ b % 32) (h30 : b % 32 ≤ 30) :
    bp_scan_cbor_head tvb s = .ok ⟨s, 1, some .ReservedMinorType, b / 32, b % 32, 0⟩ := by
  unfold bp_scan_cbor_head
  rw [h]
  have h1 : ¬ b % 32 < 24 := by omega
  have h2 : ¬ b % 32 ≤ 27 := by omega
  have h3 : ¬ b % 32 = 31 := by omega
  simp [h1, h2, h3]

theorem scan_head_len_pos {tvb : List Nat} {s : Nat} {hd : bp_cbor_head_t}
    (h : bp_scan_cbor_head tvb s = .ok hd) : 1 ≤ hd.length := by
  unfold bp_scan_cbor_head at h
  cases h0 : byteAt tvb s with
  | none => rw [h0] at h; simp at h
  | some b =>
    rw [h0] at h
    by_cases h1 : b % 32 < 24
    · simp [h1] at h; rw [← h]
    · by_cases h2 : b % 32 ≤ 27
      · simp [h1, h2] at h
        cases h3 : readBytes tvb (s + 1) (argLen (b % 32)) with
        | none => rw [h3] at h; simp at h
        | some bs => rw [h3] at h; simp at h; rw [← h]; simp
      · by_cases h4 : b % 32 = 31 <;> simp [h1, h2, h4] at h <;> rw [← h]

theorem chunkAux_error_eq {tvb : List Nat} {start : Nat} :
    ∀ {fuel ofs : Nat} {errs : List BpError} {tags : List Nat} {e : BpError},
      chunkAux tvb start fuel ofs errs tags = .error e → e = .TruncatedData := by
  intro fuel
  induction fuel with
  | zero => intro ofs errs tags e h; unfold chunkAux at h; simp at h; exact h.symm
  | succ f ih =>
    intro ofs errs tags e h
    unfold chunkAux at h
    cases h0 : bp_scan_cbor_head tvb ofs with
    | error e' =>
      rw [h0] at h; simp at h
      exact h ▸ scan_head_error_eq h0
    | ok hd =>
      rw [h0] at h
      by_cases h6 : hd.type_major = 6
      · simp [h6] at h; exact ih h
      · simp [h6] at h

theorem chunkAux_start {tvb : List Nat} {start : Nat} :
    ∀ {fuel ofs : Nat} {errs : List BpError} {tags : List Nat} {ch : bp_cbor_chunk_t},
      chunkAux tvb start fuel ofs errs tags = .ok ch → ch.start = start := by
  intro fuel
  induction fuel with
  | zero => intro ofs errs tags ch h; unfold chunkAux at h; simp at h
  | succ f ih =>
    intro ofs errs tags ch h
    unfold chunkAux at h
    cases h0 : bp_scan_cbor_head tvb ofs with
    | error e' => rw [h0] at h; simp at h
    | ok hd =>
      rw [h0] at h
      by_cases h6 : hd.type_major = 6
      · simp [h6] at h; exact ih h
      · simp [h6] at h; rw [← h]

theorem chunkAux_hl_pos {tvb : List Nat} {start : Nat} :
    ∀ {fuel ofs : Nat} {errs : List BpError} {tags : List Nat} {ch : bp_cbor_chunk_t},
      chunkAux tvb start fuel ofs errs tags = .ok ch → start ≤ ofs →
        ofs + 1 - start ≤ ch.head_length := by
  intro fuel
  induction fuel with
  | zero => intro ofs errs tags ch h _; unfold chunkAux at h; simp at h
  | succ f ih =>
    intro ofs errs tags ch h hso
    unfold chunkAux at h
    cases h0 : bp_scan_cbor_head tvb ofs with
    | error e' => rw [h0] at h; simp at h
    | ok hd =>
      rw [h0] at h
      have hlen := scan_head_len_pos h0
      by_cases h6 : hd.type_major = 6
      · simp [h6] at h
        have := ih h (by omega)
        omega
      · simp [h6] at h; rw [← h]; simp; omega

theorem chunkAux_dl_ge_hl {tvb : List Nat} {start : Nat} :
    ∀ {fuel ofs : Nat} {errs : List BpError} {tags : List Nat} {ch : bp_cbor_chunk_t},
      chunkAux tvb start fuel ofs errs tags = .ok ch →
        ch.head_length ≤ ch.data_length := by
  intro fuel
  induction fuel with
  | zero => intro ofs errs tags ch h; unfold chunkAux at h; simp at h
  | succ f ih =>
    intro ofs errs tags ch h
    unfold chunkAux at h
    cases h0 : bp_scan_cbor_head tvb ofs with
    | error e' => rw [h0] at h; simp at h
    | ok hd =>
      rw [h0] at h
      by_cases h6 : hd.type_major = 6
      · simp [h6] at h; exact ih h
      · simp [h6] at h; rw [← h]; simp
        by_cases hc : (hd.type_major = 2 ∨ hd.type_major = 3) ∧ hd.type_minor ≠ 31
        · simp [hc]; omega
        · simp [hc]; omega

theorem chunkAt {tvb : List Nat} {s b fuel : Nat} (h : byteAt tvb s = some b)
    (hmn : b % 32 < 24) (hmj : b / 32 ≠ 6) (hf : 1 ≤ fuel) :
    scanChunk tvb fuel s =
      .ok ⟨s, 1, (if b / 32 = 2 ∨ b / 32 = 3 then 1 + b % 32 else 1),
           [], [], b / 32, b % 32, b % 32⟩ := by
  cases fuel with
  | zero => omega
  | succ f =>
    unfold scanChunk chunkAux
    rw [headAt_small h hmn]
    have h31 : ¬ (b % 32 = 31) := by omega
    simp [hmj, headErrList, h31, Nat.add_sub_cancel_left]

theorem readBytes_spec {tvb : List Nat} {s : Nat} :
    ∀ {n : Nat} {bs : List Nat}, readBytes tvb s n = some bs →
      bs.length = n ∧ ∀ b ∈ bs, b < 256 := by
  intro n
  induction n generalizing s with
  | zero => intro bs h; simp [readBytes] at h; simp [h]
  | succ m ih =>
    intro bs h
    unfold readBytes at h
    cases h0 : byteAt tvb s with
    | none => rw [h0] at h; simp at h
    | some b =>
      rw [h0] at h
      cases h1 : readBytes tvb (s + 1) m with
      | none => rw [h1] at h; simp at h
      | some bs' =>
        rw [h1] at h
        simp at h
        obtain ⟨hlen, hmem⟩ := ih h1
        subst h
        refine ⟨by simp [hlen], ?_⟩
        intro x hx
        rcases List.mem_cons.mp hx with h | h
        · exact h ▸ byteAt_lt h0
        · exact hmem x h

theorem bigEndian_foldl_lt : ∀ (bs : List Nat) (acc : Nat), (∀ b ∈ bs, b < 256) →
    bs.foldl (fun a b => a * 256 + b) acc < (acc + 1) * 256 ^ bs.length := by
  intro bs
  induction bs with
  | nil => intro acc _; simp
  | cons b rest ih =>
    intro acc hmem
    have hb : b < 256 := hmem b (by simp)
    have := ih (acc * 256 + b) (fun x hx => hmem x (by simp [hx]))
    calc (b :: rest).foldl (fun a b => a * 256 + b) acc
        = rest.foldl (fun a b => a * 256 + b) (acc * 256 + b) := by simp [List.foldl]
      _ < (acc * 256 + b + 1) * 256 ^ rest.length := this
      _ ≤ (acc + 1) * 256 ^ (b :: rest).length := by
          simp only [List.length_cons, pow_succ]
          have h1 : acc * 256 + b + 1 ≤ (acc + 1) * 256 := by omega
          calc (acc * 256 + b + 1) * 256 ^ rest.length
              ≤ ((acc + 1) * 256) * 256 ^ rest.length := Nat.mul_le_mul_right _ h1
            _ = (acc + 1) * (256 ^ rest.length * 256) := by ring

theorem bigEndian_lt {bs : List Nat} (h : ∀ b ∈ bs, b < 256) :
    bigEndian bs < 256 ^ bs.length := by
  have := bigEndian_foldl_lt bs 0 h
  simpa [bigEndian] using this

/-- C2 (amended): for minor values 0-23 the decoded value is the minor
itself with header length 1; for minors 24/25/26 it is the big-endian
integer of the following 1/2/4 bytes; for minor 27 it is the big-endian
integer of the following 8 bytes reduced modulo 2^63; the scan fails
with `TruncatedData` whenever the buffer ends before the argument
bytes. -/
theorem headscanner_minor_semantics (tvb : List Nat) (s b : Nat) (bs : List Nat)
    (h : byteAt tvb s = some b) :
    (b % 32 < 24 → bp_scan_cbor_head tvb s = .ok ⟨s, 1, none, b / 32, b % 32, b % 32⟩) ∧
    (24 ≤ b % 32 → b % 32 ≤ 26 →
      readBytes tvb (s + 1) (argLen (b % 32)) = some bs →
        bp_scan_cbor_head tvb s =
          .ok ⟨s, 1 + argLen (b % 32), none, b / 32, b % 32, bigEndian bs⟩) ∧
    (b % 32 = 27 → readBytes tvb (s + 1) 8 = some bs →
        bp_scan_cbor_head tvb s = .ok ⟨s, 9, none, b / 32, 27, bigEndian bs % 2 ^ 63⟩) ∧
    (24 ≤ b % 32 → b % 32 ≤ 27 → readBytes tvb (s + 1) (argLen (b % 32)) = none →
        bp_scan_cbor_head tvb s = .error .TruncatedData) := by
  refine ⟨fun hlt => headAt_small h hlt, ?_, ?_, ?_⟩
  · intro h24 h26 hr
    have h27 : b % 32 ≤ 27 := by omega
    have := headAt_arg h h24 h27 hr
    obtain ⟨hlen, hmem⟩ := readBytes_spec hr
    have hle : argLen (b % 32) ≤ 4 := by
      unfold argLen; split
      · omega
      · split
        · omega
        · split
          · omega
          · omega
    have hbound : bigEndian bs < 2 ^ 63 := by
      have h1 := bigEndian_lt hmem
      have h2 : (256 : Nat) ^ bs.length ≤ 256 ^ 4 :=
        Nat.pow_le_pow_right (by norm_num) (by omega)
      calc bigEndian bs < 256 ^ bs.length := h1
        _ ≤ 256 ^ 4 := h2
        _ < 2 ^ 63 := by norm_num
    rw [this, Nat.mod_eq_of_lt hbound]
  · intro h27 hr
    have h24 : 24 ≤ b % 32 := by omega
    have h27' : b % 32 ≤ 27 := by omega
    have hal : argLen (b % 32) = 8 := by rw [h27]; rfl
    have := headAt_arg h h24 h27' (by rw [hal]; exact hr)
    rw [this, hal, h27]
  · intro h24 h27 hr
    exact headAt_arg_trunc h h24 h27 hr

/-- C2 witness check at concrete inputs. -/
theorem headscanner_minor_semantics_check :
    byteAt [0x19, 0x12, 0x34] 0 = some 0x19 ∧
    bp_scan_cbor_head [0x19, 0x12, 0x34] 0 = .ok ⟨0, 3, none, 0, 25, 0x1234⟩ := by
  constructor
  · decide
  · have := (headscanner_minor_semantics [0x19, 0x12, 0x34] 0 0x19 [0x12, 0x34] (by decide)).2.1
      (by decide) (by decide) (by decide)
    simpa using this

/-- C2 counterexample: with minor 27 and the top bit set, the decoded
value is not the big-endian integer of the following 8 bytes. -/
theorem headscanner_minor27_truncates :
    bp_scan_cbor_head [0x1B, 0x80, 0, 0, 0, 0, 0, 0, 0] 0 = .ok ⟨0, 9, none, 0, 27, 0⟩ ∧
    readBytes [0x1B, 0x80, 0, 0, 0, 0, 0, 0, 0] 1 8 = some [0x80, 0, 0, 0, 0, 0, 0, 0] ∧
    bigEndian [0x80, 0, 0, 0, 0, 0, 0, 0] ≠ 0 := by decide

/-- C8: a CBOR unsigned integer needing the full 64-bit range is
truncated to 63 bits and the scan still succeeds with no error mark. -/
theorem headscanner_63bit_truncation (tvb : List Nat) (s b : Nat) (bs : List Nat)
    (h : byteAt tvb s = some b) (h27 : b % 32 = 27)
    (hr : readBytes tvb (s + 1) 8 = some bs) (hbig : 2 ^ 63 ≤ bigEndian bs) :
    bp_scan_cbor_head tvb s = .ok ⟨s, 9, none, b / 32, 27, bigEndian bs - 2 ^ 63⟩ := by
  obtain ⟨hlen, hmem⟩ := readBytes_spec hr
  have hlt : bigEndian bs < 2 ^ 64 := by
    have h1 := bigEndian_lt hmem
    rw [hlen] at h1
    calc bigEndian bs < 256 ^ 8 := h1
      _ ≤ 2 ^ 64 := by norm_num
  have hal : argLen (b % 32) = 8 := by rw [h27]; rfl
  have harg := headAt_arg h (by omega) (by omega) (by rw [hal]; exact hr)
  rw [harg, hal, h27]
  have hmod : bigEndian bs % 2 ^ 63 = bigEndian bs - 2 ^ 63 := by omega
  rw [hmod]

/-- C8 witness at a concrete 64-bit-range input. -/
theorem headscanner_63bit_truncation_check :
    byteAt [0x1B, 0xFF, 0, 0, 0, 0, 0, 0, 1] 0 = some 0x1B ∧
    bp_scan_cbor_head [0x1B, 0xFF, 0, 0, 0, 0, 0, 0, 1] 0 =
      .ok ⟨0, 9, none, 0, 27, bigEndian [0xFF, 0, 0, 0, 0, 0, 0, 1] - 2 ^ 63⟩ := by
  exact ⟨by decide,
    headscanner_63bit_truncation [0x1B, 0xFF, 0, 0, 0, 0, 0, 0, 1] 0 0x1B
      [0xFF, 0, 0, 0, 0, 0, 0, 1] (by decide) (by decide) (by decide) (by decide)⟩

/-- C10: heads that encode no integer value (indefinite marker and
reserved minors) carry raw value exactly zero. -/
theorem headscanner_valueless_rawvalue_zero (tvb : List Nat) (s b : Nat)
    (h : byteAt tvb s = some b) (h28 : 28 ≤ b % 32) :
    ∃ hd, bp_scan_cbor_head tvb s = .ok hd ∧ hd.rawvalue = 0 ∧ hd.type_minor = b % 32 := by
  have hlt : b % 32 < 32 := Nat.mod_lt b (by norm_num)
  by_cases h31 : b % 32 = 31
  · exact ⟨_, headAt_indef h h31, rfl, rfl⟩
  · exact ⟨_, headAt_reserved h h28 (by omega), rfl, rfl⟩

/-- C10 witness at the indefinite marker and a reserved minor. -/
theorem headscanner_valueless_rawvalue_zero_check :
    byteAt [0x5F] 0 = some 0x5F ∧
    (∃ hd, bp_scan_cbor_head [0x5F] 0 = .ok hd ∧ hd.rawvalue = 0 ∧ hd.type_minor = 0x5F % 32) := by
  exact ⟨by decide, headscanner_valueless_rawvalue_zero [0x5F] 0 0x5F (by decide) (by decide)⟩

/-- C3: both scanners strictly advance the read offset, and a chunk's
data extent is never shorter than its headers. -/
theorem scanners_strictly_advance (tvb : List Nat) (s : Nat) (hd : bp_cbor_head_t)
    (ch : bp_cbor_chunk_t) :
    (bp_scan_cbor_head tvb s = .ok hd → s < s + hd.length) ∧
    (bp_scan_cbor_chunk tvb s = .ok ch →
      s < s + ch.head_length ∧ ch.head_length ≤ ch.data_length) := by
  constructor
  · intro h
    have := scan_head_len_pos h
    omega
  · intro h
    unfold bp_scan_cbor_chunk scanChunk at h
    have h1 := chunkAux_hl_pos h (Nat.le_refl s)
    have h2 := chunkAux_dl_ge_hl h
    omega

/-- C3 witness at a concrete input. -/
theorem scanners_strictly_advance_check :
    bp_scan_cbor_head [0x42, 1, 2] 0 = .ok ⟨0, 1, none, 2, 2, 2⟩ ∧
    bp_scan_cbor_chunk [0x42, 1, 2] 0 = .ok ⟨0, 1, 3, [], [], 2, 2, 2⟩ ∧
    (0 : Nat) < 0 + 1 ∧
    ((0 : Nat) < 0 + (1 : Nat) ∧ (1 : Nat) ≤ 3) := by
  refine ⟨by decide, by decide, ?_, ?_⟩
  · exact (scanners_strictly_advance [0x42, 1, 2] 0 ⟨0, 1, none, 2, 2, 2⟩
      ⟨0, 1, 3, [], [], 2, 2, 2⟩).1 (by decide)
  · exact (scanners_strictly_advance [0x42, 1, 2] 0 ⟨0, 1, none, 2, 2, 2⟩
      ⟨0, 1, 3, [], [], 2, 2, 2⟩).2 (by decide)

theorem decodeEid_dtn_none (tvb : List Nat) (fuel s : Nat) (hf : 1 ≤ fuel)
    (h0 : byteAt tvb s = some 0x82) (h1 : byteAt tvb (s + 1) = some 1)
    (h2 : byteAt tvb (s + 2) = some 0) :
    decodeEid tvb fuel s = .ok (⟨1, "dtn:none"⟩, s + 3, []) := by
  have c0 : scanChunk tvb fuel s = .ok ⟨s, 1, 1, [], [], 4, 2, 2⟩ := by
    simpa using chunkAt h0 (by norm_num) (by norm_num) hf
  have c1 : scanChunk tvb fuel (s + 1) = .ok ⟨s + 1, 1, 1, [], [], 0, 1, 1⟩ := by
    simpa using chunkAt h1 (by norm_num) (by norm_num) hf
  have c2 : scanChunk tvb fuel (s + 2) = .ok ⟨s + 2, 1, 1, [], [], 0, 0, 0⟩ := by
    simpa using chunkAt h2 (by norm_num) (by norm_num) hf
  unfold decodeEid
  rw [c0]
  simp only [Nat.add_assoc]
  norm_num
  rw [c1]
  simp only [Nat.add_assoc]
  norm_num
  rw [c2]
  norm_num

theorem decodeTs_zero (tvb : List Nat) (fuel s : Nat) (hf : 1 ≤ fuel)
    (h0 : byteAt tvb s = some 0x82) (h1 : byteAt tvb (s + 1) = some 0)
    (h2 : byteAt tvb (s + 2) = some 0) :
    decodeTs tvb fuel s = .ok (⟨0, 0⟩, s + 3, []) := by
  have c0 : scanChunk tvb fuel s = .ok ⟨s, 1, 1, [], [], 4, 2, 2⟩ := by
    simpa using chunkAt h0 (by norm_num) (by norm_num) hf
  have c1 : scanChunk tvb fuel (s + 1) = .ok ⟨s + 1, 1, 1, [], [], 0, 0, 0⟩ := by
    simpa using chunkAt h1 (by norm_num) (by norm_num) hf
  have c2 : scanChunk tvb fuel (s + 2) = .ok ⟨s + 2, 1, 1, [], [], 0, 0, 0⟩ := by
    simpa using chunkAt h2 (by norm_num) (by norm_num) hf
  unfold decodeTs
  rw [c0]
  simp only [Nat.add_assoc]
  norm_num
  rw [c1]
  simp only [Nat.add_assoc]
  norm_num
  rw [c2]
  norm_num

theorem decodePrimary_encPrim (pre rest : List Nat) (fuel : Nat) (hf : 1 ≤ fuel) :
    decodePrimary (pre ++ encPrim ++ rest) fuel pre.length =
      .ok (⟨0, ⟨1, "dtn:none"⟩, ⟨1, "dtn:none"⟩, ⟨1, "dtn:none"⟩, ⟨0, 0⟩, 0, [], []⟩,
           pre.length + 17) := by
  set tvb := pre ++ encPrim ++ rest with htvb
  set s := pre.length with hs
  have eb : ∀ k a, (encPrim ++ rest)[k]? = some a → a < 256 → byteAt tvb (s + k) = some a := by
    intro k a hk ha
    have := byteAt_append_of_get pre (encPrim ++ rest) k a hk ha
    simpa [htvb, List.append_assoc] using this
  have e0 : byteAt tvb s = some 0x88 := by
    simpa using eb 0 0x88 (by simp [encPrim]) (by norm_num)
  have e1 : byteAt tvb (s + 1) = some 7 := eb 1 7 (by simp [encPrim]) (by norm_num)
  have e2 : byteAt tvb (s + 2) = some 0 := eb 2 0 (by simp [encPrim]) (by norm_num)
  have e3 : byteAt tvb (s + 3) = some 0 := eb 3 0 (by simp [encPrim]) (by norm_num)
  have e4 : byteAt tvb (s + 4) = some 0x82 := eb 4 0x82 (by simp [encPrim]) (by norm_num)
  have e5 : byteAt tvb (s + 5) = some 1 := eb 5 1 (by simp [encPrim]) (by norm_num)
  have e6 : byteAt tvb (s + 6) = some 0 := eb 6 0 (by simp [encPrim]) (by norm_num)
  have e7 : byteAt tvb (s + 7) = some 0x82 := eb 7 0x82 (by simp [encPrim]) (by norm_num)
  have e8 : byteAt tvb (s + 8) = some 1 := eb 8 1 (by simp [encPrim]) (by norm_num)
  have e9 : byteAt tvb (s + 9) = some 0 := eb 9 0 (by simp [encPrim]) (by norm_num)
  have e10 : byteAt tvb (s + 10) = some 0x82 := eb 10 0x82 (by simp [encPrim]) (by norm_num)
  have e11 : byteAt tvb (s + 11) = some 1 := eb 11 1 (by simp [encPrim]) (by norm_num)
  have e12 : byteAt tvb (s + 12) = some 0 := eb 12 0 (by simp [encPrim]) (by norm_num)
  have e13 : byteAt tvb (s + 13) = some 0x82 := eb 13 0x82 (by simp [encPrim]) (by norm_num)
  have e14 : byteAt tvb (s + 14) = some 0 := eb 14 0 (by simp [encPrim]) (by norm_num)
  have e15 : byteAt tvb (s + 15) = some 0 := eb 15 0 (by simp [encPrim]) (by norm_num)
  have e16 : byteAt tvb (s + 16) = some 0 := eb 16 0 (by simp [encPrim]) (by norm_num)
  have c0 : scanChunk tvb fuel s = .ok ⟨s, 1, 1, [], [], 4, 8, 8⟩ := by
    simpa using chunkAt e0 (by norm_num) (by norm_num) hf
  have c1 : scanChunk tvb fuel (s + 1) = .ok ⟨s + 1, 1, 1, [], [], 0, 7, 7⟩ := by
    simpa using chunkAt e1 (by norm_num) (by norm_num) hf
  have c2 : scanChunk tvb fuel (s + 2) = .ok ⟨s + 2, 1, 1, [], [], 0, 0, 0⟩ := by
    simpa using chunkAt e2 (by norm_num) (by norm_num) hf
  have c3 : scanChunk tvb fuel (s + 3) = .ok ⟨s + 3, 1, 1, [], [], 0, 0, 0⟩ := by
    simpa using chunkAt e3 (by norm_num) (by norm_num) hf
  have d1 : decodeEid tvb fuel (s + 4) = .ok (⟨1, "dtn:none"⟩, s + 7, []) := by
    have := decodeEid_dtn_none tvb fuel (s + 4) hf e4 (by simpa [Nat.add_assoc] using e5)
      (by simpa [Nat.add_assoc] using e6)
    simpa [Nat.add_assoc] using this
  have d2 : decodeEid tvb fuel (s + 7) = .ok (⟨1, "dtn:none"⟩, s + 10, []) := by
    have := decodeEid_dtn_none tvb fuel (s + 7) hf e7 (by simpa [Nat.add_assoc] using e8)
      (by simpa [Nat.add_assoc] using e9)
    simpa [Nat.add_assoc] using this
  have d3 : decodeEid tvb fuel (s + 10) = .ok (⟨1, "dtn:none"⟩, s + 13, []) := by
    have := decodeEid_dtn_none tvb fuel (s + 10) hf e10 (by simpa [Nat.add_assoc] using e11)
      (by simpa [Nat.add_assoc] using e12)
    simpa [Nat.add_assoc] using this
  have dts : decodeTs tvb fuel (s + 13) = .ok (⟨0, 0⟩, s + 16, []) := by
    have := decodeTs_zero tvb fuel (s + 13) hf e13 (by simpa [Nat.add_assoc] using e14)
      (by simpa [Nat.add_assoc] using e15)
    simpa [Nat.add_assoc] using this
  have c16 : scanChunk tvb fuel (s + 16) = .ok ⟨s + 16, 1, 1, [], [], 0, 0, 0⟩ := by
    simpa using chunkAt e16 (by norm_num) (by norm_num) hf
  unfold decodePrimary
  rw [c0]
  simp only [Nat.add_assoc]
  norm_num
  rw [c1]
  norm_num
  unfold decodePrimaryRest
  rw [show s + 1 + 1 = s + 2 by omega, c2]
  norm_num
  rw [show s + 2 + 1 = s + 3 by omega, c3]
  norm_num
  rw [show s + 3 + 1 = s + 4 by omega, d1]
  norm_num
  rw [d2]
  norm_num
  rw [d3]
  norm_num
  rw [dts]
  norm_num
  rw [c16]
  norm_num

theorem mapMod_eq_self {l : List Nat} (h : ∀ b ∈ l, b < 256) :
    l.map (fun b => b % 256) = l := by
  induction l with
  | nil => rfl
  | cons x xs ih =>
    simp only [List.map_cons]
    rw [Nat.mod_eq_of_lt (h x (by simp)), ih (fun b hb => h b (by simp [hb]))]

theorem sliceBytes_exact (pre l post : List Nat) :
    sliceBytes (pre ++ l ++ post) pre.length l.length = l.map (fun b => b % 256) := by
  unfold sliceBytes
  rw [List.append_assoc, List.drop_left, List.take_left]

theorem decodeCanonical_plain (pre rest : List Nat) (tc bn fl : Nat) (d : List Nat)
    (fuel idx : Nat) (hf : 1 ≤ fuel) (htc : tc < 24) (hbn : bn < 24) (hfl : fl < 24)
    (hd : d.length < 24) (hdb : ∀ b ∈ d, b < 256) :
    decodeCanonical (pre ++ encodeBlockPlain tc bn fl d ++ rest) fuel pre.length idx =
      .ok (⟨idx, some tc, some bn, fl, 0, [], d, []⟩, pre.length + (6 + d.length)) := by
  set tvb := pre ++ encodeBlockPlain tc bn fl d ++ rest with htvb
  set s := pre.length with hs
  have eb : ∀ k a, (encodeBlockPlain tc bn fl d ++ rest)[k]? = some a → a < 256 →
      byteAt tvb (s + k) = some a := by
    intro k a hk ha
    have := byteAt_append_of_get pre (encodeBlockPlain tc bn fl d ++ rest) k a hk ha
    simpa [htvb, List.append_assoc] using this
  have e0 : byteAt tvb s = some 0x85 := by
    simpa using eb 0 0x85 (by simp [encodeBlockPlain]) (by norm_num)
  have e1 : byteAt tvb (s + 1) = some tc := eb 1 tc (by simp [encodeBlockPlain]) (by omega)
  have e2 : byteAt tvb (s + 2) = some bn := eb 2 bn (by simp [encodeBlockPlain]) (by omega)
  have e3 : byteAt tvb (s + 3) = some fl := eb 3 fl (by simp [encodeBlockPlain]) (by omega)
  have e4 : byteAt tvb (s + 4) = some 0 := eb 4 0 (by simp [encodeBlockPlain]) (by norm_num)
  have e5 : byteAt tvb (s + 5) = some (0x40 + d.length) :=
    eb 5 (0x40 + d.length) (by simp [encodeBlockPlain]) (by omega)
  have c0 : scanChunk tvb fuel s = .ok ⟨s, 1, 1, [], [], 4, 5, 5⟩ := by
    simpa using chunkAt e0 (by norm_num) (by norm_num) hf
  have c1 : scanChunk tvb fuel (s + 1) = .ok ⟨s + 1, 1, 1, [], [], 0, tc, tc⟩ := by
    have := chunkAt e1 (by omega) (by omega) hf
    simpa [Nat.div_eq_of_lt (show tc < 32 by omega), Nat.mod_eq_of_lt (show tc < 32 by omega)]
      using this
  have c2 : scanChunk tvb fuel (s + 2) = .ok ⟨s + 2, 1, 1, [], [], 0, bn, bn⟩ := by
    have := chunkAt e2 (by omega) (by omega) hf
    simpa [Nat.div_eq_of_lt (show bn < 32 by omega), Nat.mod_eq_of_lt (show bn < 32 by omega)]
      using this
  have c3 : scanChunk tvb fuel (s + 3) = .ok ⟨s + 3, 1, 1, [], [], 0, fl, fl⟩ := by
    have := chunkAt e3 (by omega) (by omega) hf
    simpa [Nat.div_eq_of_lt (show fl < 32 by omega), Nat.mod_eq_of_lt (show fl < 32 by omega)]
      using this
  have c4 : scanChunk tvb fuel (s + 4) = .ok ⟨s + 4, 1, 1, [], [], 0, 0, 0⟩ := by
    simpa using chunkAt e4 (by norm_num) (by norm_num) hf
  have hd32 : (0x40 + d.length) / 32 = 2 := by omega
  have hm32 : (0x40 + d.length) % 32 = d.length := by omega
  have c5 : scanChunk tvb fuel (s + 5) =
      .ok ⟨s + 5, 1, 1 + d.length, [], [], 2, d.length, d.length⟩ := by
    have := chunkAt e5 (by omega) (by omega) hf
    simpa [hd32, hm32] using this
  have hslice : sliceBytes tvb (s + 6) d.length = d := by
    have h6 : s + 6 = (pre ++ [0x85, tc, bn, fl, 0, 0x40 + d.length]).length := by
      simp [hs]
    have hform : tvb = (pre ++ [0x85, tc, bn, fl, 0, 0x40 + d.length]) ++ d ++ rest := by
      simp [htvb, encodeBlockPlain]
    rw [h6, hform, sliceBytes_exact, mapMod_eq_self hdb]
  unfold decodeCanonical
  rw [c0]
  norm_num
  rw [c1]
  norm_num
  rw [show s + 1 + 1 = s + 2 by omega, c2]
  norm_num
  rw [show s + 2 + 1 = s + 3 by omega, c3]
  norm_num
  rw [show s + 3 + 1 = s + 4 by omega, c4]
  norm_num
  rw [show s + 4 + 1 = s + 5 by omega, c5]
  norm_num
  constructor
  · constructor
    · rw [if_neg (show ¬ d.length = 31 by omega), show s + 5 + 1 = s + 6 by omega, hslice]
    · omega
  · omega

theorem crcShift_lt16 {x : Nat} (h : x < 65536) : crcShift 0x8408 x < 65536 := by
  unfold crcShift
  split
  · exact Nat.xor_lt_two_pow (n := 16) (by omega) (by norm_num)
  · omega

theorem crc16_update_lt {c b : Nat} (h : c < 65536) : crc16_update c b < 65536 := by
  unfold crc16_update
  have base : c ^^^ b % 256 < 65536 :=
    Nat.xor_lt_two_pow (n := 16) h (by have := Nat.mod_lt b (show 0 < 256 by norm_num); omega)
  have : ∀ (l : List Nat) (x : Nat), x < 65536 →
      l.foldl (fun c _ => crcShift 0x8408 c) x < 65536 := by
    intro l
    induction l with
    | nil => intro x hx; simpa using hx
    | cons y ys ih => intro x hx; simpa using ih (crcShift 0x8408 x) (crcShift_lt16 hx)
  exact this _ _ base

theorem crc16_lt (bs : List Nat) : crc16 bs < 65536 := by
  unfold crc16
  have : ∀ (l : List Nat) (x : Nat), x < 65536 → l.foldl crc16_update x < 65536 := by
    intro l
    induction l with
    | nil => intro x hx; simpa using hx
    | cons y ys ih => intro x hx; simpa using ih (crc16_update x y) (crc16_update_lt hx)
  exact Nat.xor_lt_two_pow (n := 16) (this bs 0xFFFF (by norm_num)) (by norm_num)

theorem beBytes_two_mem_lt {c : Nat} (_h : c < 65536) : ∀ b ∈ beBytes 2 c, b < 256 := by
  intro b hb
  simp [beBytes] at hb
  rcases hb with h1 | h1 <;> subst h1 <;> omega

theorem zeroRange_append_two (l : List Nat) (a b : Nat) :
    zeroRange (l ++ [a, b]) l.length 2 = l ++ [0, 0] := by
  induction l with
  | nil => rfl
  | cons x xs ih => simpa [zeroRange] using ih

theorem decodeCanonical_crc16 (pre rest : List Nat) (tc bn fl : Nat) (d f2 : List Nat)
    (fuel idx : Nat) (hf : 1 ≤ fuel) (htc : tc < 24) (hbn : bn < 24) (hfl : fl < 24)
    (hd : d.length < 24) (hdb : ∀ b ∈ d, b < 256)
    (hf2 : f2.length = 2) (hf2b : ∀ b ∈ f2, b < 256) :
    decodeCanonical (pre ++ encodeBlock16With tc bn fl d f2 ++ rest) fuel pre.length idx =
      .ok (⟨idx, some tc, some bn, fl, 1, f2, d,
            if f2 = crcFieldOf tc bn fl d then [] else [.CrcMismatch]⟩,
           pre.length + (9 + d.length)) := by
  obtain ⟨fa, fb, rfl⟩ := List.length_eq_two.mp hf2
  have hfa : fa < 256 := hf2b fa (by simp)
  have hfb : fb < 256 := hf2b fb (by simp)
  set tvb := pre ++ encodeBlock16With tc bn fl d [fa, fb] ++ rest with htvb
  set s := pre.length with hs
  have eb : ∀ k a, (encodeBlock16With tc bn fl d [fa, fb] ++ rest)[k]? = some a → a < 256 →
      byteAt tvb (s + k) = some a := by
    intro k a hk ha
    have := byteAt_append_of_get pre (encodeBlock16With tc bn fl d [fa, fb] ++ rest) k a hk ha
    simpa [htvb, List.append_assoc] using this
  have e0 : byteAt tvb s = some 0x86 := by
    simpa using eb 0 0x86 (by simp [encodeBlock16With, encodeBlock16Body]) (by norm_num)
  have e1 : byteAt tvb (s + 1) = some tc :=
    eb 1 tc (by simp [encodeBlock16With, encodeBlock16Body]) (by omega)
  have e2 : byteAt tvb (s + 2) = some bn :=
    eb 2 bn (by simp [encodeBlock16With, encodeBlock16Body]) (by omega)
  have e3 : byteAt tvb (s + 3) = some fl :=
    eb 3 fl (by simp [encodeBlock16With, encodeBlock16Body]) (by omega)
  have e4 : byteAt tvb (s + 4) = some 1 :=
    eb 4 1 (by simp [encodeBlock16With, encodeBlock16Body]) (by norm_num)
  have e5 : byteAt tvb (s + 5) = some (0x40 + d.length) :=
    eb 5 (0x40 + d.length) (by simp [encodeBlock16With, encodeBlock16Body]) (by omega)
  have e6 : byteAt tvb (s + (6 + d.length)) = some 0x42 := by
    apply eb (6 + d.length) 0x42 ?_ (by norm_num)
    have hsplit : encodeBlock16With tc bn fl d [fa, fb] ++ rest =
        (0x86 :: tc :: bn :: fl :: 1 :: (0x40 + d.length) :: d) ++ (0x42 :: fa :: fb :: rest) := by
      simp [encodeBlock16With, encodeBlock16Body]
    have hlen : (0x86 :: tc :: bn :: fl :: 1 :: (0x40 + d.length) :: d).length = 6 + d.length := by
      simp
      omega
    rw [hsplit, List.getElem?_append_right (by rw [hlen]), hlen, Nat.sub_self]
    simp
  have c0 : scanChunk tvb fuel s = .ok ⟨s, 1, 1, [], [], 4, 6, 6⟩ := by
    simpa using chunkAt e0 (by norm_num) (by norm_num) hf
  have c1 : scanChunk tvb fuel (s + 1) = .ok ⟨s + 1, 1, 1, [], [], 0, tc, tc⟩ := by
    have := chunkAt e1 (by omega) (by omega) hf
    simpa [Nat.div_eq_of_lt (show tc < 32 by omega), Nat.mod_eq_of_lt (show tc < 32 by omega)]
      using this
  have c2 : scanChunk tvb fuel (s + 2) = .ok ⟨s + 2, 1, 1, [], [], 0, bn, bn⟩ := by
    have := chunkAt e2 (by omega) (by omega) hf
    simpa [Nat.div_eq_of_lt (show bn < 32 by omega), Nat.mod_eq_of_lt (show bn < 32 by omega)]
      using this
  have c3 : scanChunk tvb fuel (s + 3) = .ok ⟨s + 3, 1, 1, [], [], 0, fl, fl⟩ := by
    have := chunkAt e3 (by omega) (by omega) hf
    simpa [Nat.div_eq_of_lt (show fl < 32 by omega), Nat.mod_eq_of_lt (show fl < 32 by omega)]
      using this
  have c4 : scanChunk tvb fuel (s + 4) = .ok ⟨s + 4, 1, 1, [], [], 0, 1, 1⟩ := by
    simpa using chunkAt e4 (by norm_num) (by norm_num) hf
  have hd32 : (0x40 + d.length) / 32 = 2 := by omega
  have hm32 : (0x40 + d.length) % 32 = d.length := by omega
  have c5 : scanChunk tvb fuel (s + 5) =
      .ok ⟨s + 5, 1, 1 + d.length, [], [], 2, d.length, d.length⟩ := by
    have := chunkAt e5 (by omega) (by omega) hf
    simpa [hd32, hm32] using this
  have c6 : scanChunk tvb fuel (s + (6 + d.length)) =
      .ok ⟨s + (6 + d.length), 1, 3, [], [], 2, 2, 2⟩ := by
    simpa using chunkAt e6 (by norm_num) (by norm_num) hf
  have hslice : sliceBytes tvb (s + 6) d.length = d := by
    have h6 : s + 6 = (pre ++ [0x86, tc, bn, fl, 1, 0x40 + d.length]).length := by
      simp [hs]
    have hform : tvb = (pre ++ [0x86, tc, bn, fl, 1, 0x40 + d.length]) ++ d ++
        (0x42 :: fa :: fb :: rest) := by
      simp [htvb, encodeBlock16With, encodeBlock16Body]
    rw [h6, hform, sliceBytes_exact, mapMod_eq_self hdb]
  have hfslice : sliceBytes tvb (s + (6 + d.length) + 1) 2 = [fa, fb] := by
    have hbody : (encodeBlock16Body tc bn fl d).length = 7 + d.length := by
      simp [encodeBlock16Body]
      omega
    have h7 : s + (6 + d.length) + 1 = (pre ++ encodeBlock16Body tc bn fl d).length := by
      simp [hs, hbody]; omega
    have hform : tvb = (pre ++ encodeBlock16Body tc bn fl d) ++ [fa, fb] ++ rest := by
      simp [htvb, encodeBlock16With, List.append_assoc]
    rw [h7, hform]
    have := sliceBytes_exact (pre ++ encodeBlock16Body tc bn fl d) [fa, fb] rest
    simpa [Nat.mod_eq_of_lt hfa, Nat.mod_eq_of_lt hfb] using this
  have hblockslice : sliceBytes tvb s (9 + d.length) =
      encodeBlock16Body tc bn fl d ++ [fa, fb] := by
    have hlen : (encodeBlock16Body tc bn fl d ++ [fa, fb]).length = 9 + d.length := by
      simp [encodeBlock16Body]
      omega
    have hform : tvb = pre ++ (encodeBlock16Body tc bn fl d ++ [fa, fb]) ++ rest := by
      simp [htvb, encodeBlock16With, List.append_assoc]
    have hmask : ∀ b ∈ encodeBlock16Body tc bn fl d ++ [fa, fb], b < 256 := by
      intro b hb
      simp [encodeBlock16Body] at hb
      rcases hb with h | h | h | h | h | h | h | h | h
      · omega
      · omega
      · omega
      · omega
      · omega
      · omega
      · exact hdb b h
      · omega
      · rcases h with h | h <;> omega
    rw [hform, ← hlen, sliceBytes_exact, mapMod_eq_self hmask]
  have hzero : zeroRange (encodeBlock16Body tc bn fl d ++ [fa, fb]) (7 + d.length) 2 =
      encodeBlock16Body tc bn fl d ++ [0, 0] := by
    have hbody : (encodeBlock16Body tc bn fl d).length = 7 + d.length := by
      simp [encodeBlock16Body]
      omega
    rw [← hbody, zeroRange_append_two]
  have hcrc : crcCheck tvb s 1 (s + (6 + d.length) + 1) (s + (6 + d.length) + 3) =
      if [fa, fb] = crcFieldOf tc bn fl d then [] else [.CrcMismatch] := by
    unfold crcCheck
    norm_num [crcLen]
    rw [show s + (6 + d.length) + 3 - s = 9 + d.length by omega, hblockslice]
    rw [show s + (6 + d.length) + 1 - s = 7 + d.length by omega, hzero, hfslice]
    simp only [crcFieldOf]
  have hrcf : readCrcField tvb fuel s 1 (s + (6 + d.length)) =
      .ok ([fa, fb], if [fa, fb] = crcFieldOf tc bn fl d then [] else [.CrcMismatch],
           s + (9 + d.length)) := by
    unfold readCrcField
    rw [c6]
    norm_num [crcLen]
    rw [hfslice, hcrc]
    refine ⟨rfl, rfl, by omega⟩
  unfold decodeCanonical
  rw [c0]
  norm_num
  rw [c1]
  norm_num
  rw [show s + 1 + 1 = s + 2 by omega, c2]
  norm_num
  rw [show s + 2 + 1 = s + 3 by omega, c3]
  norm_num
  rw [show s + 3 + 1 = s + 4 by omega, c4]
  norm_num
  rw [show s + 4 + 1 = s + 5 by omega, c5]
  norm_num
  rw [show s + 5 + (1 + d.length) = s + (6 + d.length) by omega, hrcf]
  have h31 : ¬ d.length = 31 := by omega
  norm_num [h31]
  rw [show s + 5 + 1 = s + 6 by omega, hslice]

theorem decodeBlocksDef_succ (tvb : List Nat) (fuel k ofs idx : Nat) :
    decodeBlocksDef tvb fuel (k + 1) ofs idx =
      match decodeCanonical tvb fuel ofs idx with
      | .error err => .error err
      | .ok (b, next) =>
        match decodeBlocksDef tvb fuel k next (idx + 1) with
        | .error err => .error err
        | .ok (bs, fin) => .ok (b :: bs, fin) := rfl

theorem decodeBlocksDef_zero (tvb : List Nat) (fuel ofs idx : Nat) :
    decodeBlocksDef tvb fuel 0 ofs idx = .ok ([], ofs) := rfl

/-- C6: a bundle of two canonical blocks declaring the same block number
decodes to exactly one `DuplicateBlockNumber` anomaly while both blocks
are kept. -/
theorem bundle_duplicate_block_number (tc1 bn fl1 tc2 fl2 : Nat) (d1 d2 : List Nat)
    (htc1 : tc1 < 24) (hbn : bn < 24) (hfl1 : fl1 < 24) (htc2 : tc2 < 24) (hfl2 : fl2 < 24)
    (hd1 : d1.length < 24) (hdb1 : ∀ b ∈ d1, b < 256)
    (hd2 : d2.length < 24) (hdb2 : ∀ b ∈ d2, b < 256) :
    decodeBundle (0x83 :: (encPrim ++ (encodeBlockPlain tc1 bn fl1 d1 ++
        encodeBlockPlain tc2 bn fl2 d2))) =
      .ok ⟨⟨0, ⟨1, "dtn:none"⟩, ⟨1, "dtn:none"⟩, ⟨1, "dtn:none"⟩, ⟨0, 0⟩, 0, [], []⟩,
           [⟨1, some tc1, some bn, fl1, 0, [], d1, []⟩,
            ⟨2, some tc2, some bn, fl2, 0, [], d2, []⟩],
           .DuplicateBlockNumber :: (if tc1 = 1 then [.PayloadNotLast] else [])⟩ ∧
    (BpError.DuplicateBlockNumber ::
      (if tc1 = 1 then [BpError.PayloadNotLast] else [])).count .DuplicateBlockNumber = 1 := by
  set blk1 := encodeBlockPlain tc1 bn fl1 d1 with hblk1
  set blk2 := encodeBlockPlain tc2 bn fl2 d2 with hblk2
  set tvb := 0x83 :: (encPrim ++ (blk1 ++ blk2)) with htvb
  set fuel := tvb.length + 1 with hfuel
  have hf : 1 ≤ fuel := by omega
  have hlen1 : blk1.length = 6 + d1.length := by simp [hblk1, encodeBlockPlain]; omega
  have hlen2 : blk2.length = 6 + d2.length := by simp [hblk2, encodeBlockPlain]; omega
  have hlent : tvb.length = 30 + d1.length + d2.length := by
    simp [htvb, encPrim, hlen1, hlen2]; omega
  have b0 : byteAt tvb 0 = some 0x83 := by simp [htvb, byteAt]
  have c0 : scanChunk tvb fuel 0 = .ok ⟨0, 1, 1, [], [], 4, 3, 3⟩ := by
    simpa using chunkAt b0 (by norm_num) (by norm_num) hf
  have hprim : decodePrimary tvb fuel 1 = .ok
      (⟨0, ⟨1, "dtn:none"⟩, ⟨1, "dtn:none"⟩, ⟨1, "dtn:none"⟩, ⟨0, 0⟩, 0, [], []⟩, 18) := by
    have := decodePrimary_encPrim [0x83] (blk1 ++ blk2) fuel hf
    simpa using this
  have s1 : decodeCanonical tvb fuel 18 1 =
      .ok (⟨1, some tc1, some bn, fl1, 0, [], d1, []⟩, 18 + (6 + d1.length)) := by
    have := decodeCanonical_plain ([0x83] ++ encPrim) blk2 tc1 bn fl1 d1 fuel 1 hf
      htc1 hbn hfl1 hd1 hdb1
    have hp : ([0x83] ++ encPrim).length = 18 := by simp [encPrim]
    rw [hp] at this
    have hform : ([0x83] ++ encPrim) ++ encodeBlockPlain tc1 bn fl1 d1 ++ blk2 = tvb := by
      simp [htvb, hblk1, List.append_assoc]
    rw [hform] at this
    exact this
  have s2 : decodeCanonical tvb fuel (18 + (6 + d1.length)) 2 =
      .ok (⟨2, some tc2, some bn, fl2, 0, [], d2, []⟩,
           18 + (6 + d1.length) + (6 + d2.length)) := by
    have := decodeCanonical_plain ([0x83] ++ encPrim ++ blk1) [] tc2 bn fl2 d2 fuel 2 hf
      htc2 hbn hfl2 hd2 hdb2
    have hp : ([0x83] ++ encPrim ++ blk1).length = 18 + (6 + d1.length) := by
      simp [encPrim, hlen1]
      omega
    rw [hp] at this
    have hform : ([0x83] ++ encPrim ++ blk1) ++ encodeBlockPlain tc2 bn fl2 d2 ++ [] = tvb := by
      simp [htvb, hblk2, List.append_assoc]
    rw [hform] at this
    exact this
  have hblocks : decodeBlocksDef tvb fuel 2 18 1 =
      .ok ([⟨1, some tc1, some bn, fl1, 0, [], d1, []⟩,
            ⟨2, some tc2, some bn, fl2, 0, [], d2, []⟩],
           18 + (6 + d1.length) + (6 + d2.length)) := by
    rw [decodeBlocksDef_succ, s1]
    norm_num
    rw [decodeBlocksDef_succ, s2]
    norm_num
    rw [decodeBlocksDef_zero]
  refine ⟨?_, by split <;> simp⟩
  simp only [decodeBundle]
  rw [← hfuel, c0]
  norm_num
  rw [hprim]
  norm_num
  rw [hblocks]
  norm_num
  rw [if_neg (show ¬ (18 + (6 + d1.length) + (6 + d2.length) < tvb.length) by
    rw [hlent]; omega)]
  simp [dupBlockNumErrs, payloadNotLastErrs]

theorem decodeBundle_crc16Block (tc1 bn1 fl1 tc2 bn2 fl2 : Nat) (d1 d2 f2 : List Nat)
    (htc1 : tc1 < 24) (hbn1 : bn1 < 24) (hfl1 : fl1 < 24)
    (htc2 : tc2 < 24) (hbn2 : bn2 < 24) (hfl2 : fl2 < 24)
    (hd1 : d1.length < 24) (hdb1 : ∀ b ∈ d1, b < 256)
    (hd2 : d2.length < 24) (hdb2 : ∀ b ∈ d2, b < 256)
    (hf2 : f2.length = 2) (hf2b : ∀ b ∈ f2, b < 256) :
    decodeBundle (0x83 :: (encPrim ++ (encodeBlockPlain tc1 bn1 fl1 d1 ++
        encodeBlock16With tc2 bn2 fl2 d2 f2))) =
      .ok ⟨⟨0, ⟨1, "dtn:none"⟩, ⟨1, "dtn:none"⟩, ⟨1, "dtn:none"⟩, ⟨0, 0⟩, 0, [], []⟩,
           [⟨1, some tc1, some bn1, fl1, 0, [], d1, []⟩,
            ⟨2, some tc2, some bn2, fl2, 1, f2, d2,
             if f2 = crcFieldOf tc2 bn2 fl2 d2 then [] else [.CrcMismatch]⟩],
           (if bn2 = bn1 then [.DuplicateBlockNumber] else []) ++
             (if tc1 = 1 then [.PayloadNotLast] else [])⟩ := by
  set blk1 := encodeBlockPlain tc1 bn1 fl1 d1 with hblk1
  set blk2 := encodeBlock16With tc2 bn2 fl2 d2 f2 with hblk2
  set tvb := 0x83 :: (encPrim ++ (blk1 ++ blk2)) with htvb
  set fuel := tvb.length + 1 with hfuel
  have hf : 1 ≤ fuel := by omega
  have hlen1 : blk1.length = 6 + d1.length := by simp [hblk1, encodeBlockPlain]; omega
  have hlen2 : blk2.length = 9 + d2.length := by
    simp [hblk2, encodeBlock16With, encodeBlock16Body, hf2]
    omega
  have hlent : tvb.length = 33 + d1.length + d2.length := by
    have h17 : encPrim.length = 17 := rfl
    rw [htvb, List.length_cons, List.length_append, List.length_append, h17, hlen1, hlen2]
    omega
  have b0 : byteAt tvb 0 = some 0x83 := by simp [htvb, byteAt]
  have c0 : scanChunk tvb fuel 0 = .ok ⟨0, 1, 1, [], [], 4, 3, 3⟩ := by
    simpa using chunkAt b0 (by norm_num) (by norm_num) hf
  have hprim : decodePrimary tvb fuel 1 = .ok
      (⟨0, ⟨1, "dtn:none"⟩, ⟨1, "dtn:none"⟩, ⟨1, "dtn:none"⟩, ⟨0, 0⟩, 0, [], []⟩, 18) := by
    have := decodePrimary_encPrim [0x83] (blk1 ++ blk2) fuel hf
    simpa using this
  have s1 : decodeCanonical tvb fuel 18 1 =
      .ok (⟨1, some tc1, some bn1, fl1, 0, [], d1, []⟩, 18 + (6 + d1.length)) := by
    have := decodeCanonical_plain ([0x83] ++ encPrim) blk2 tc1 bn1 fl1 d1 fuel 1 hf
      htc1 hbn1 hfl1 hd1 hdb1
    have hp : ([0x83] ++ encPrim).length = 18 := by simp [encPrim]
    rw [hp] at this
    have hform : ([0x83] ++ encPrim) ++ encodeBlockPlain tc1 bn1 fl1 d1 ++ blk2 = tvb := by
      simp [htvb, hblk1, List.append_assoc]
    rw [hform] at this
    exact this
  have s2 : decodeCanonical tvb fuel (18 + (6 + d1.length)) 2 =
      .ok (⟨2, some tc2, some bn2, fl2, 1, f2, d2,
            if f2 = crcFieldOf tc2 bn2 fl2 d2 then [] else [.CrcMismatch]⟩,
           18 + (6 + d1.length) + (9 + d2.length)) := by
    have := decodeCanonical_crc16 ([0x83] ++ encPrim ++ blk1) [] tc2 bn2 fl2 d2 f2 fuel 2 hf
      htc2 hbn2 hfl2 hd2 hdb2 hf2 hf2b
    have hp : ([0x83] ++ encPrim ++ blk1).length = 18 + (6 + d1.length) := by
      simp [encPrim, hlen1]
      omega
    rw [hp] at this
    have hform : ([0x83] ++ encPrim ++ blk1) ++ encodeBlock16With tc2 bn2 fl2 d2 f2 ++ [] = tvb := by
      simp [htvb, hblk2, List.append_assoc]
    rw [hform] at this
    exact this
  have hblocks : decodeBlocksDef tvb fuel 2 18 1 =
      .ok ([⟨1, some tc1, some bn1, fl1, 0, [], d1, []⟩,
            ⟨2, some tc2, some bn2, fl2, 1, f2, d2,
             if f2 = crcFieldOf tc2 bn2 fl2 d2 then [] else [.CrcMismatch]⟩],
           18 + (6 + d1.length) + (9 + d2.length)) := by
    rw [decodeBlocksDef_succ, s1]
    norm_num
    rw [decodeBlocksDef_succ, s2]
    norm_num
    rw [decodeBlocksDef_zero]
  simp only [decodeBundle]
  rw [← hfuel, c0]
  norm_num
  rw [hprim]
  norm_num
  rw [hblocks]
  norm_num
  rw [if_neg (show ¬ (18 + (6 + d1.length) + (9 + d2.length) < tvb.length) by
    rw [hlent]; omega)]
  simp [dupBlockNumErrs, payloadNotLastErrs]

/-- C4: corrupting exactly one byte of a valid CRC-16 field yields
exactly one `CrcMismatch` on that block, with every other decoded field
of that block and of the other blocks identical. -/
theorem bundle_crc16_single_corruption (tc1 bn1 fl1 tc2 bn2 fl2 : Nat) (d1 d2 : List Nat)
    (i v : Nat)
    (htc1 : tc1 < 24) (hbn1 : bn1 < 24) (hfl1 : fl1 < 24)
    (htc2 : tc2 < 24) (hbn2 : bn2 < 24) (hfl2 : fl2 < 24)
    (hd1 : d1.length < 24) (hdb1 : ∀ b ∈ d1, b < 256)
    (hd2 : d2.length < 24) (hdb2 : ∀ b ∈ d2, b < 256)
    (hi : i < 2) (hv : v < 256)
    (hne : v ≠ (crcFieldOf tc2 bn2 fl2 d2).getD i 0) :
    decodeBundle (0x83 :: (encPrim ++ (encodeBlockPlain tc1 bn1 fl1 d1 ++
        encodeBlock16With tc2 bn2 fl2 d2 (crcFieldOf tc2 bn2 fl2 d2)))) =
      .ok ⟨⟨0, ⟨1, "dtn:none"⟩, ⟨1, "dtn:none"⟩, ⟨1, "dtn:none"⟩, ⟨0, 0⟩, 0, [], []⟩,
           [⟨1, some tc1, some bn1, fl1, 0, [], d1, []⟩,
            ⟨2, some tc2, some bn2, fl2, 1, crcFieldOf tc2 bn2 fl2 d2, d2, []⟩],
           (if bn2 = bn1 then [.DuplicateBlockNumber] else []) ++
             (if tc1 = 1 then [.PayloadNotLast] else [])⟩ ∧
    decodeBundle (0x83 :: (encPrim ++ (encodeBlockPlain tc1 bn1 fl1 d1 ++
        encodeBlock16With tc2 bn2 fl2 d2 ((crcFieldOf tc2 bn2 fl2 d2).set i v)))) =
      .ok ⟨⟨0, ⟨1, "dtn:none"⟩, ⟨1, "dtn:none"⟩, ⟨1, "dtn:none"⟩, ⟨0, 0⟩, 0, [], []⟩,
           [⟨1, some tc1, some bn1, fl1, 0, [], d1, []⟩,
            ⟨2, some tc2, some bn2, fl2, 1, (crcFieldOf tc2 bn2 fl2 d2).set i v, d2,
             [.CrcMismatch]⟩],
           (if bn2 = bn1 then [.DuplicateBlockNumber] else []) ++
             (if tc1 = 1 then [.PayloadNotLast] else [])⟩ := by
  have hclt : crc16 (encodeBlock16Body tc2 bn2 fl2 d2 ++ [0, 0]) < 65536 := crc16_lt _
  have hglen : (crcFieldOf tc2 bn2 fl2 d2).length = 2 := by
    simp [crcFieldOf, beBytes]
  have hgb : ∀ b ∈ crcFieldOf tc2 bn2 fl2 d2, b < 256 := beBytes_two_mem_lt hclt
  obtain ⟨a, b, hab⟩ := List.length_eq_two.mp hglen
  have hslen : ((crcFieldOf tc2 bn2 fl2 d2).set i v).length = 2 := by
    simp [hglen]
  have hsb : ∀ x ∈ (crcFieldOf tc2 bn2 fl2 d2).set i v, x < 256 := by
    rw [hab]
    have ha : a < 256 := hgb a (by rw [hab]; simp)
    have hb : b < 256 := hgb b (by rw [hab]; simp)
    interval_cases i
    · intro x hx
      simp [List.set] at hx
      rcases hx with h | h <;> omega
    · intro x hx
      simp [List.set] at hx
      rcases hx with h | h <;> omega
  have hneq : (crcFieldOf tc2 bn2 fl2 d2).set i v ≠ crcFieldOf tc2 bn2 fl2 d2 := by
    rw [hab]
    rw [hab] at hne
    interval_cases i
    · simp [List.set] at hne ⊢
      exact hne
    · simp [List.set] at hne ⊢
      exact hne
  constructor
  · have h1 := decodeBundle_crc16Block tc1 bn1 fl1 tc2 bn2 fl2 d1 d2
      (crcFieldOf tc2 bn2 fl2 d2) htc1 hbn1 hfl1 htc2 hbn2 hfl2 hd1 hdb1 hd2 hdb2 hglen hgb
    rw [if_pos rfl] at h1
    exact h1
  · have h2 := decodeBundle_crc16Block tc1 bn1 fl1 tc2 bn2 fl2 d1 d2
      ((crcFieldOf tc2 bn2 fl2 d2).set i v) htc1 hbn1 hfl1 htc2 hbn2 hfl2 hd1 hdb1 hd2 hdb2
      hslen hsb
    rw [if_neg hneq] at h2
    exact h2

theorem chunkAux_tagchain (b : Nat) (rest : List Nat) (hb : b < 256)
    (hmn : b % 32 < 24) (hmj : b / 32 ≠ 6) :
    ∀ (ts : List Nat) (pre : List Nat) (fuel start : Nat) (errs : List BpError)
      (acc : List Nat), (∀ t ∈ ts, t < 24) → ts.length + 1 ≤ fuel →
      chunkAux (pre ++ (ts.map fun t => 0xC0 + t) ++ b :: rest) start fuel pre.length errs acc =
        .ok ⟨start, pre.length + ts.length + 1 - start,
             (if b / 32 = 2 ∨ b / 32 = 3 then pre.length + ts.length + 1 - start + b % 32
              else pre.length + ts.length + 1 - start),
             errs, acc ++ ts, b / 32, b % 32, b % 32⟩ := by
  intro ts
  induction ts with
  | nil =>
    intro pre fuel start errs acc _ hfuel
    cases fuel with
    | zero => omega
    | succ f =>
      have h0 : byteAt (pre ++ ([] : List Nat).map (fun t => 0xC0 + t) ++ b :: rest)
          pre.length = some b := by
        simpa using byteAt_append_of_get pre (b :: rest) 0 b (by simp) hb
      unfold chunkAux
      rw [headAt_small h0 hmn]
      have h31 : ¬ (b % 32 = 31) := by omega
      simp [hmj, headErrList, h31]
  | cons t ts' ih =>
    intro pre fuel start errs acc hts hfuel
    cases fuel with
    | zero => simp at hfuel
    | succ f =>
      have ht : t < 24 := hts t (by simp)
      have hbyte : byteAt (pre ++ ((t :: ts').map fun t => 0xC0 + t) ++ b :: rest)
          pre.length = some (0xC0 + t) := by
        have : (((t :: ts').map fun t => 0xC0 + t) ++ b :: rest)[0]? = some (0xC0 + t) := by
          simp
        simpa using byteAt_append_of_get pre _ 0 (0xC0 + t) this (by omega)
      have hmod : (0xC0 + t) % 32 = t := by omega
      have hdiv : (0xC0 + t) / 32 = 6 := by omega
      unfold chunkAux
      rw [headAt_small hbyte (by omega)]
      simp only [hdiv, hmod, headErrList, if_pos rfl]
      norm_num
      have hshape : pre ++ (0xC0 + t) :: (List.map (fun t => 0xC0 + t) ts' ++ b :: rest) =
          (pre ++ [0xC0 + t]) ++ List.map (fun t => 0xC0 + t) ts' ++ b :: rest := by
        simp [List.append_assoc]
      rw [hshape]
      have hlen : pre.length + 1 = (pre ++ [0xC0 + t]).length := by
        simp
      rw [hlen]
      rw [ih (pre ++ [0xC0 + t]) f start errs (acc ++ [t])
        (fun x hx => hts x (by simp [hx])) (by simpa using hfuel)]
      simp only [Except.ok.injEq, bp_cbor_chunk_t.mk.injEq]
      and_intros
      all_goals first
        | rfl
        | trivial
        | omega
        | (split <;> omega)
        | (simp [List.append_assoc])

/-- C7: a chunk scanned from a tag chain of length N followed by a
non-tag item records exactly the N tag values in wire order; its data
length accounts only for the final item (header length plus declared
byte count for a definite string) and is never below the header
length. -/
theorem chunkscanner_tagchain (ts : List Nat) (pre rest : List Nat) (b : Nat)
    (hts : ∀ t ∈ ts, t < 24) (hb : b < 256) (hmn : b % 32 < 24) (hmj : b / 32 ≠ 6) :
    bp_scan_cbor_chunk (pre ++ (ts.map fun t => 0xC0 + t) ++ b :: rest) pre.length =
      .ok ⟨pre.length, ts.length + 1,
           (if b / 32 = 2 ∨ b / 32 = 3 then ts.length + 1 + b % 32 else ts.length + 1),
           [], ts, b / 32, b % 32, b % 32⟩ ∧
    (∀ (tvb' : List Nat) (s' : Nat) (ch : bp_cbor_chunk_t),
      bp_scan_cbor_chunk tvb' s' = .ok ch → ch.head_length ≤ ch.data_length) := by
  constructor
  · have hfuel : ts.length + 1 ≤
        (pre ++ (ts.map fun t => 0xC0 + t) ++ b :: rest).length + 1 := by
      simp
      omega
    have happ := chunkAux_tagchain b rest hb hmn hmj ts pre
      ((pre ++ (ts.map fun t => 0xC0 + t) ++ b :: rest).length + 1) pre.length [] [] hts hfuel
    unfold bp_scan_cbor_chunk scanChunk
    rw [happ]
    simp only [Except.ok.injEq, bp_cbor_chunk_t.mk.injEq]
    and_intros
    all_goals first
      | rfl
      | trivial
      | omega
      | (split <;> omega)
      | simp
  · intro tvb' s' ch h
    unfold bp_scan_cbor_chunk scanChunk at h
    exact chunkAux_dl_ge_hl h

/-- C7 witness: two tags before a three-byte text string. -/
theorem chunkscanner_tagchain_check :
    bp_scan_cbor_chunk [0xC5, 0xCA, 0x63, 0x61, 0x62, 0x63] 0 =
      .ok ⟨0, 3, 6, [], [5, 10], 3, 3, 3⟩ ∧
    (1 : Nat) ≤ 3 := by
  constructor
  · have := (chunkscanner_tagchain [5, 10] [] [0x61, 0x62, 0x63] 0x63
      (by decide) (by decide) (by decide) (by decide)).1
    simpa using this
  · exact (chunkscanner_tagchain [5, 10] [] [0x61, 0x62, 0x63] 0x63
      (by decide) (by decide) (by decide) (by decide)).2 [0x42, 0, 0] 0
      ⟨0, 1, 3, [], [], 2, 2, 2⟩ (by decide)

/-- C5: the EidDecoder renders `[1, 0]` as `dtn:none` and `[2, [12, 3]]`
as `ipn:12.3`; any other scheme id yields a placeholder URI with a
non-fatal `UnsupportedScheme` warning instead of aborting. -/
theorem eiddecoder_semantics :
    decodeEidTop [0x82, 0x01, 0x00] = .ok (⟨1, "dtn:none"⟩, 3, []) ∧
    decodeEidTop [0x82, 0x02, 0x82, 0x0C, 0x03] = .ok (⟨2, "ipn:12.3"⟩, 5, []) ∧
    (∀ (tvb : List Nat) (fuel s next : Nat) (arrCh schCh : bp_cbor_chunk_t),
      scanChunk tvb fuel s = .ok arrCh → arrCh.type_major = 4 → arrCh.head_value = 2 →
      arrCh.errors = [] →
      scanChunk tvb fuel (arrCh.start + arrCh.data_length) = .ok schCh →
      schCh.type_major = 0 → schCh.errors = [] →
      schCh.head_value ≠ 1 → schCh.head_value ≠ 2 →
      skipItem tvb fuel (schCh.start + schCh.data_length) = .ok next →
      decodeEid tvb fuel s =
        .ok (⟨(schCh.head_value : Int), "unknown"⟩, next, [.UnsupportedScheme])) := by
  refine ⟨by decide, by decide, ?_⟩
  intro tvb fuel s next arrCh schCh harr hamaj haval haerr hsch hsmaj hserr hne1 hne2 hskip
  unfold decodeEid
  rw [harr]
  simp only [hamaj, haval, haerr]
  norm_num
  rw [hsch]
  simp only [hsmaj, hserr, hne1, hne2]
  norm_num [hne1, hne2]
  rw [hskip]

theorem scanChunk_error_eq {tvb : List Nat} {fuel s : Nat} {e : BpError}
    (h : scanChunk tvb fuel s = .error e) : e = .TruncatedData :=
  chunkAux_error_eq h

theorem skipGen_error_eq {tvb : List Nat} :
    ∀ {fuel ofs : Nat} {mode : Option Nat} {e : BpError},
      skipGen tvb fuel ofs mode = .error e → e = .TruncatedData := by
  intro fuel
  induction fuel with
  | zero =>
    intro ofs mode e h
    unfold skipGen at h
    split at h
    · simp at h
    · injection h with h2
      exact h2.symm
  | succ f ih =>
    intro ofs mode e h
    match mode with
    | some 0 => simp [skipGen] at h
    | none =>
      unfold skipGen at h
      rw [if_neg (by simp)] at h
      split at h
      · rename_i e' heq
        injection h with h2
        exact h2 ▸ scanChunk_error_eq heq
      · rename_i ch heq
        split at h
        · simp at h
        · split at h
          · cases h1 : skipGen tvb f (ofs + ch.head_length) (some ch.head_value) with
            | error e' => rw [h1] at h; simp at h; first | exact h ▸ ih h1 | exact h.symm ▸ ih h1
            | ok next => rw [h1] at h; simp at h; exact ih h
          · split at h
            · cases h1 : skipGen tvb f (ofs + ch.head_length) (some (2 * ch.head_value)) with
              | error e' => rw [h1] at h; simp at h; first | exact h ▸ ih h1 | exact h.symm ▸ ih h1
              | ok next => rw [h1] at h; simp at h; exact ih h
            · split at h
              · cases h1 : skipGen tvb f (ofs + ch.head_length) none with
                | error e' => rw [h1] at h; simp at h; first | exact h ▸ ih h1 | exact h.symm ▸ ih h1
                | ok next => rw [h1] at h; simp at h; exact ih h
              · simp at h
                exact ih h
    | some (k + 1) =>
      unfold skipGen at h
      rw [if_neg (by simp)] at h
      split at h
      · rename_i e' heq
        injection h with h2
        exact h2 ▸ scanChunk_error_eq heq
      · rename_i ch heq
        split at h
        · simp at h
        · split at h
          · cases h1 : skipGen tvb f (ofs + ch.head_length) (some ch.head_value) with
            | error e' => rw [h1] at h; simp at h; first | exact h ▸ ih h1 | exact h.symm ▸ ih h1
            | ok next => rw [h1] at h; simp at h; exact ih h
          · split at h
            · cases h1 : skipGen tvb f (ofs + ch.head_length) (some (2 * ch.head_value)) with
              | error e' => rw [h1] at h; simp at h; first | exact h ▸ ih h1 | exact h.symm ▸ ih h1
              | ok next => rw [h1] at h; simp at h; exact ih h
            · split at h
              · cases h1 : skipGen tvb f (ofs + ch.head_length) none with
                | error e' => rw [h1] at h; simp at h; first | exact h ▸ ih h1 | exact h.symm ▸ ih h1
                | ok next => rw [h1] at h; simp at h; exact ih h
              · simp at h
                exact ih h

theorem decodeEid_error_eq {tvb : List Nat} {fuel s : Nat} {e : BpError}
    (h : decodeEid tvb fuel s = .error e) : e = .TruncatedData := by
  unfold decodeEid at h
  iterate 10 (all_goals (try simp only [] at h); all_goals (try split at h))
  all_goals (try simp only [] at h)
  all_goals
    first
    | (rename_i e' heq
       first
       | exact h ▸ scanChunk_error_eq heq
       | exact h ▸ skipGen_error_eq heq
       | (injection h with h2
          first
          | exact h2 ▸ scanChunk_error_eq heq
          | exact h2 ▸ skipGen_error_eq heq))
    | simp at h

theorem decodeTs_error_eq {tvb : List Nat} {fuel s : Nat} {e : BpError}
    (h : decodeTs tvb fuel s = .error e) : e = .TruncatedData := by
  unfold decodeTs at h
  iterate 6 (all_goals (try simp only [] at h); all_goals (try split at h))
  all_goals (try simp only [] at h)
  all_goals
    first
    | (rename_i e' heq
       first
       | exact h ▸ scanChunk_error_eq heq
       | (injection h with h2
          exact h2 ▸ scanChunk_error_eq heq))
    | simp at h

theorem readCrcField_error_eq {tvb : List Nat} {fuel blockStart crcType pos : Nat}
    {e : BpError} (h : readCrcField tvb fuel blockStart crcType pos = .error e) :
    e = .TruncatedData := by
  unfold readCrcField at h
  iterate 4 (all_goals (try simp only [] at h); all_goals (try split at h))
  all_goals (try simp only [] at h)
  all_goals
    first
    | (rename_i e' heq
       first
       | exact h ▸ scanChunk_error_eq heq
       | (injection h with h2
          exact h2 ▸ scanChunk_error_eq heq))
    | simp at h

theorem decodeCanonical_error_eq {tvb : List Nat} {fuel s idx : Nat} {e : BpError}
    (h : decodeCanonical tvb fuel s idx = .error e) : e = .TruncatedData := by
  unfold decodeCanonical at h
  iterate 12 (all_goals (try simp only [] at h); all_goals (try split at h))
  all_goals (try simp only [] at h)
  all_goals
    first
    | (rename_i e' heq
       first
       | exact h ▸ scanChunk_error_eq heq
       | exact h ▸ readCrcField_error_eq heq
       | (injection h with h2
          first
          | exact h2 ▸ scanChunk_error_eq heq
          | exact h2 ▸ readCrcField_error_eq heq))
    | simp at h

theorem decodeFragPair_error_eq {tvb : List Nat} {fuel p9 : Nat} {e : BpError}
    (h : decodeFragPair tvb fuel p9 = .error e) : e = .TruncatedData := by
  unfold decodeFragPair at h
  iterate 4 (all_goals (try simp only [] at h); all_goals (try split at h))
  all_goals (try simp only [] at h)
  all_goals
    first
    | (rename_i e' heq
       first
       | exact h ▸ scanChunk_error_eq heq
       | (injection h with h2
          exact h2 ▸ scanChunk_error_eq heq))
    | simp at h

theorem decodePrimaryRest_error_eq {tvb : List Nat} {fuel start p2 : Nat}
    {errs0 : List BpError} {e : BpError}
    (h : decodePrimaryRest tvb fuel start errs0 p2 = .error e) : e = .TruncatedData := by
  unfold decodePrimaryRest at h
  iterate 16 (all_goals (try simp only [] at h); all_goals (try split at h))
  all_goals (try simp only [] at h)
  all_goals try (
    first
    | (rename_i e' heq
       first
       | exact h ▸ scanChunk_error_eq heq
       | exact h ▸ decodeEid_error_eq heq
       | exact h ▸ decodeTs_error_eq heq
       | exact h ▸ readCrcField_error_eq heq
       | exact h ▸ decodeFragPair_error_eq heq
       | (injection h with h2
          first
          | exact h2 ▸ scanChunk_error_eq heq
          | exact h2 ▸ decodeEid_error_eq heq
          | exact h2 ▸ decodeTs_error_eq heq
          | exact h2 ▸ readCrcField_error_eq heq
          | exact h2 ▸ decodeFragPair_error_eq heq))
    | simp at h)
  all_goals (
    rename_i e' heq
    iterate 2 (all_goals try split at heq)
    all_goals
      first
      | exact h ▸ decodeFragPair_error_eq heq
      | simp at heq)

theorem decodePrimary_invalid_of_bad_version {tvb : List Nat} {fuel start : Nat}
    {pc vc : bp_cbor_chunk_t}
    (hparr : scanChunk tvb fuel start = .ok pc)
    (hver : scanChunk tvb fuel (pc.start + pc.data_length) = .ok vc)
    (hbad : ¬ (vc.type_major = 0 ∧ vc.head_value = 7)) :
    decodePrimary tvb fuel start = .error .InvalidVersion := by
  unfold decodePrimary
  rw [hparr]
  simp only []
  rw [hver]
  simp only [hbad, if_neg, if_false]

theorem decodePrimary_error_with_good_version {tvb : List Nat} {fuel start : Nat}
    {pc vc : bp_cbor_chunk_t} {e : BpError}
    (hparr : scanChunk tvb fuel start = .ok pc)
    (hver : scanChunk tvb fuel (pc.start + pc.data_length) = .ok vc)
    (hmaj : vc.type_major = 0) (hval : vc.head_value = 7)
    (h : decodePrimary tvb fuel start = .error e) : e = .TruncatedData := by
  unfold decodePrimary at h
  rw [hparr] at h
  simp only [] at h
  rw [hver] at h
  simp [hmaj, hval] at h
  exact decodePrimaryRest_error_eq h

theorem decodeBlocksDef_error_eq {tvb : List Nat} {fuel : Nat} :
    ∀ {count ofs idx : Nat} {e : BpError},
      decodeBlocksDef tvb fuel count ofs idx = .error e → e = .TruncatedData := by
  intro count
  induction count with
  | zero => intro ofs idx e h; simp [decodeBlocksDef] at h
  | succ k ih =>
    intro ofs idx e h
    rw [decodeBlocksDef_succ] at h
    cases h1 : decodeCanonical tvb fuel ofs idx with
    | error e' =>
      rw [h1] at h
      simp at h
      exact h ▸ decodeCanonical_error_eq h1
    | ok r =>
      obtain ⟨b, next⟩ := r
      rw [h1] at h
      simp only [] at h
      cases h2 : decodeBlocksDef tvb fuel k next (idx + 1) with
      | error e' =>
        rw [h2] at h
        simp at h
        exact h ▸ ih h2
      | ok r2 =>
        obtain ⟨bs, fin⟩ := r2
        rw [h2] at h
        simp at h

theorem decodeBlocksIndef_error_eq {tvb : List Nat} :
    ∀ {fuel ofs idx : Nat} {e : BpError},
      decodeBlocksIndef tvb fuel ofs idx = .error e → e = .TruncatedData := by
  intro fuel
  induction fuel with
  | zero =>
    intro ofs idx e h
    simp [decodeBlocksIndef] at h
    exact h.symm
  | succ f ih =>
    intro ofs idx e h
    unfold decodeBlocksIndef at h
    cases h0 : bp_scan_cbor_head tvb ofs with
    | error e' =>
      rw [h0] at h
      simp at h
      exact h ▸ scan_head_error_eq h0
    | ok hd =>
      rw [h0] at h
      simp only [] at h
      split at h
      · simp at h
      · cases h1 : decodeCanonical tvb (f + 1) ofs idx with
        | error e' =>
          rw [h1] at h
          simp at h
          exact h ▸ decodeCanonical_error_eq h1
        | ok r =>
          obtain ⟨b, next⟩ := r
          rw [h1] at h
          simp only [] at h
          cases h2 : decodeBlocksIndef tvb f next (idx + 1) with
          | error e' =>
            rw [h2] at h
            simp at h
            exact h ▸ ih h2
          | ok r2 =>
            obtain ⟨bs, fin⟩ := r2
            rw [h2] at h
            simp at h

/-- C1: a primary block declaring a version other than 7 makes bundle
decoding abort with the fatal `InvalidVersion` and no Bundle value,
while version 7 never aborts for this reason. -/
theorem bundle_version_check (tvb : List Nat) (oc pc vc : bp_cbor_chunk_t)
    (houter : scanChunk tvb (tvb.length + 1) 0 = .ok oc)
    (harr : oc.type_major = 4)
    (hcnt : oc.type_minor = 31 ∨ 1 ≤ oc.head_value)
    (hparr : scanChunk tvb (tvb.length + 1) (oc.start + oc.head_length) = .ok pc)
    (hver : scanChunk tvb (tvb.length + 1) (pc.start + pc.data_length) = .ok vc)
    (hvmaj : vc.type_major = 0) :
    (vc.head_value ≠ 7 → decodeBundle tvb = .error .InvalidVersion) ∧
    (vc.head_value = 7 → decodeBundle tvb ≠ .error .InvalidVersion) := by
  constructor
  · intro hv7
    have hprim : decodePrimary tvb (tvb.length + 1) (oc.start + oc.head_length) =
        .error .InvalidVersion :=
      decodePrimary_invalid_of_bad_version hparr hver (by
        intro hc
        exact hv7 hc.2)
    simp only [decodeBundle]
    rw [houter]
    norm_num
    rw [if_pos harr]
    by_cases hm : oc.type_minor = 31
    · rw [if_pos hm, hprim]
    · rw [if_neg hm]
      rcases hcnt with hc | hc
      · exact absurd hc hm
      · rw [if_neg (by omega), hprim]
  · intro hv7 h
    simp only [decodeBundle] at h
    rw [houter] at h
    norm_num at h
    rw [if_pos harr] at h
    by_cases hm : oc.type_minor = 31
    · rw [if_pos hm] at h
      cases hp : decodePrimary tvb (tvb.length + 1) (oc.start + oc.head_length) with
      | error e =>
        rw [hp] at h
        simp at h
        have := decodePrimary_error_with_good_version hparr hver hvmaj hv7 hp
        rw [this] at h
        exact absurd h.symm (by simp)
      | ok pr =>
        obtain ⟨prim, p⟩ := pr
        rw [hp] at h
        simp only [] at h
        cases hb : decodeBlocksIndef tvb (tvb.length + 1) p 1 with
        | error e =>
          rw [hb] at h
          simp at h
          have := decodeBlocksIndef_error_eq hb
          rw [this] at h
          exact absurd h.symm (by simp)
        | ok r =>
          obtain ⟨bs, endOfs⟩ := r
          rw [hb] at h
          simp at h
    · rw [if_neg hm] at h
      by_cases h0 : oc.head_value = 0
      · rw [if_pos h0] at h
        simp at h
      · rw [if_neg h0] at h
        cases hp : decodePrimary tvb (tvb.length + 1) (oc.start + oc.head_length) with
        | error e =>
          rw [hp] at h
          simp at h
          have := decodePrimary_error_with_good_version hparr hver hvmaj hv7 hp
          rw [this] at h
          exact absurd h.symm (by simp)
        | ok pr =>
          obtain ⟨prim, p⟩ := pr
          rw [hp] at h
          simp only [] at h
          cases hb : decodeBlocksDef tvb (tvb.length + 1) (oc.head_value - 1) p 1 with
          | error e =>
            rw [hb] at h
            simp at h
            have := decodeBlocksDef_error_eq hb
            rw [this] at h
            exact absurd h.symm (by simp)
          | ok r =>
            obtain ⟨bs, endOfs⟩ := r
            rw [hb] at h
            simp at h

theorem decodeEid_scheme_nonneg {tvb : List Nat} {fuel s : Nat} {e : bp_eid_t}
    {n : Nat} {errs : List BpError}
    (h : decodeEid tvb fuel s = .ok (e, n, errs)) : 0 ≤ e.scheme := by
  unfold decodeEid at h
  iterate 10 (all_goals (try simp only [] at h); all_goals (try split at h))
  all_goals (try simp only [] at h)
  all_goals try simp at h
  all_goals (
    obtain ⟨h1, h2, h3⟩ := h
    subst h1
    simp)

theorem decodePrimary_eids {tvb : List Nat} {fuel start : Nat}
    {prim : bp_block_primary_t} {p : Nat}
    (h : decodePrimary tvb fuel start = .ok (prim, p)) :
    0 ≤ prim.dst_eid.scheme ∧ 0 ≤ prim.src_eid.scheme ∧ 0 ≤ prim.rep_eid.scheme ∧
    (∃ s1 n1 r1 s2 n2 r2 s3 n3 r3,
      decodeEid tvb fuel s1 = .ok (prim.dst_eid, n1, r1) ∧
      decodeEid tvb fuel s2 = .ok (prim.src_eid, n2, r2) ∧
      decodeEid tvb fuel s3 = .ok (prim.rep_eid, n3, r3)) := by
  unfold decodePrimary decodePrimaryRest at h
  iterate 20 (all_goals (try simp only [] at h); all_goals (try split at h))
  all_goals try simp at h
  all_goals (
    obtain ⟨h1, -⟩ := h
    subst h1
    refine ⟨decodeEid_scheme_nonneg (by assumption), decodeEid_scheme_nonneg (by assumption),
      decodeEid_scheme_nonneg (by assumption),
      _, _, _, _, _, _, _, _, _, by assumption, by assumption, by assumption⟩)

/-- C9: every decoded EID carries a nonnegative scheme id, and the EIDs
of a decoded bundle's primary block are exactly EidDecoder outputs, not
modified by any later decoding step. -/
theorem eid_scheme_unsigned_and_immutable :
    (∀ (tvb : List Nat) (fuel s : Nat) (e : bp_eid_t) (n : Nat) (errs : List BpError),
      decodeEid tvb fuel s = .ok (e, n, errs) → 0 ≤ e.scheme) ∧
    (∀ (tvb : List Nat) (B : bp_bundle_t), decodeBundle tvb = .ok B →
      0 ≤ B.primary.dst_eid.scheme ∧ 0 ≤ B.primary.src_eid.scheme ∧
        0 ≤ B.primary.rep_eid.scheme ∧
      (∃ s1 n1 r1 s2 n2 r2 s3 n3 r3,
        decodeEid tvb (tvb.length + 1) s1 = .ok (B.primary.dst_eid, n1, r1) ∧
        decodeEid tvb (tvb.length + 1) s2 = .ok (B.primary.src_eid, n2, r2) ∧
        decodeEid tvb (tvb.length + 1) s3 = .ok (B.primary.rep_eid, n3, r3))) := by
  constructor
  · intro tvb fuel s e n errs h
    exact decodeEid_scheme_nonneg h
  · intro tvb B h
    unfold decodeBundle at h
    iterate 10 (all_goals (try simp only [] at h); all_goals (try split at h))
    all_goals try simp at h
    all_goals (
      subst h
      exact decodePrimary_eids (by assumption))

set_option maxRecDepth 4000 in
/-- C1 witness: a concrete bundle declaring version 6 decodes to the
fatal `InvalidVersion` with no Bundle value. -/
theorem bundle_version_check_application :
    (scanChunk ([0x82, 0x88, 0x06, 0x00, 0x00, 0x82, 0x01, 0x00, 0x82, 0x01, 0x00,
        0x82, 0x01, 0x00, 0x82, 0x00, 0x00, 0x00, 0x85, 0x01, 0x01, 0x00, 0x00, 0x40])
        25 0 = .ok ⟨0, 1, 1, [], [], 4, 2, 2⟩) ∧
    decodeBundle [0x82, 0x88, 0x06, 0x00, 0x00, 0x82, 0x01, 0x00, 0x82, 0x01, 0x00,
        0x82, 0x01, 0x00, 0x82, 0x00, 0x00, 0x00, 0x85, 0x01, 0x01, 0x00, 0x00, 0x40] =
      .error .InvalidVersion := by
  refine ⟨by decide, ?_⟩
  exact (bundle_version_check _ ⟨0, 1, 1, [], [], 4, 2, 2⟩ ⟨1, 1, 1, [], [], 4, 8, 8⟩
    ⟨2, 1, 1, [], [], 0, 6, 6⟩ (by decide) (by decide) (by decide) (by decide)
    (by decide) (by decide)).1 (by decide)

set_option maxRecDepth 4000 in
/-- C4 witness: concrete corruption of the first CRC-16 field byte. -/
theorem bundle_crc16_single_corruption_application :
    (0 : Nat) < 2 ∧ (9 : Nat) < 256 ∧ 9 ≠ (crcFieldOf 1 3 0 [0xBB]).getD 0 0 ∧
    decodeBundle (0x83 :: (encPrim ++ (encodeBlockPlain 7 2 0 [0xAA] ++
        encodeBlock16With 1 3 0 [0xBB] ((crcFieldOf 1 3 0 [0xBB]).set 0 9)))) =
      .ok ⟨⟨0, ⟨1, "dtn:none"⟩, ⟨1, "dtn:none"⟩, ⟨1, "dtn:none"⟩, ⟨0, 0⟩, 0, [], []⟩,
           [⟨1, some 7, some 2, 0, 0, [], [0xAA], []⟩,
            ⟨2, some 1, some 3, 0, 1, (crcFieldOf 1 3 0 [0xBB]).set 0 9, [0xBB],
             [.CrcMismatch]⟩],
           []⟩ := by
  refine ⟨by decide, by decide, by decide, ?_⟩
  have := (bundle_crc16_single_corruption 7 2 0 1 3 0 [0xAA] [0xBB] 0 9
    (by decide) (by decide) (by decide) (by decide) (by decide) (by decide)
    (by decide) (by decide) (by decide) (by decide) (by decide) (by decide)
    (by decide)).2
  simpa using this

/-- C5 witness: concrete unknown scheme id 5. -/
theorem eiddecoder_semantics_application :
    (scanChunk [0x82, 0x05, 0x00] 4 0 = .ok ⟨0, 1, 1, [], [], 4, 2, 2⟩) ∧
    decodeEid [0x82, 0x05, 0x00] 4 0 = .ok (⟨5, "unknown"⟩, 3, [.UnsupportedScheme]) := by
  refine ⟨by decide, ?_⟩
  exact eiddecoder_semantics.2.2 [0x82, 0x05, 0x00] 4 0 3 ⟨0, 1, 1, [], [], 4, 2, 2⟩
    ⟨1, 1, 1, [], [], 0, 5, 5⟩ (by decide) (by decide) (by decide) (by decide)
    (by decide) (by decide) (by decide) (by decide) (by decide) (by decide)

set_option maxRecDepth 4000 in
/-- C6 witness: two concrete blocks sharing block number 5. -/
theorem bundle_duplicate_block_number_application :
    decodeBundle (0x83 :: (encPrim ++ (encodeBlockPlain 7 5 0 [0xAA] ++
        encodeBlockPlain 1 5 0 []))) =
      .ok ⟨⟨0, ⟨1, "dtn:none"⟩, ⟨1, "dtn:none"⟩, ⟨1, "dtn:none"⟩, ⟨0, 0⟩, 0, [], []⟩,
           [⟨1, some 7, some 5, 0, 0, [], [0xAA], []⟩,
            ⟨2, some 1, some 5, 0, 0, [], [], []⟩],
           [.DuplicateBlockNumber]⟩ ∧
    ([BpError.DuplicateBlockNumber].count .DuplicateBlockNumber) = 1 := by
  have := bundle_duplicate_block_number 7 5 0 1 0 [0xAA] []
    (by decide) (by decide) (by decide) (by decide) (by decide)
    (by decide) (by decide) (by decide) (by decide)
  constructor
  · have h1 := this.1
    simpa using h1
  · simpa using this.2

/-- C9 witness: the dtn:none EID decodes with nonnegative scheme id. -/
theorem eid_scheme_unsigned_application :
    decodeEid [0x82, 0x01, 0x00] 4 0 = .ok (⟨1, "dtn:none"⟩, 3, []) ∧
    (0 : Int) ≤ (⟨1, "dtn:none"⟩ : bp_eid_t).scheme := by
  refine ⟨by decide, ?_⟩
  exact eid_scheme_unsigned_and_immutable.1 [0x82, 0x01, 0x00] 4 0 ⟨1, "dtn:none"⟩ 3 []
    (by decide)
